import Mathlib

/-!
Verification development for the job-snipper repository.

This file gives a shallow embedding of the two engineering components of the
repository — the resume field extractor (`src/services/resume_parser.py`) and
the multi-source job aggregator (`src/services/real_job_search.py`, wrapped by
`src/agents/jobsearch_agent.py`) — and proves or refutes the frozen claims
about them.

Modelling conventions:
- Python strings are `String` (processed as `List Char`); the handful of
  character classes used by the source's regular expressions (`\s`, `\w`,
  `[a-zA-Z]`) are modelled over their ASCII meaning, which is the alphabet the
  source's own patterns and literals are written in.
- The source's regular expressions are fixed patterns, so each one is embedded
  as a dedicated backtracking matcher that follows the Python `re` semantics
  for that concrete pattern (leftmost match, ordered alternation, greedy or
  lazy quantifiers with backtracking).  Where a greedy quantifier is followed
  by a character that cannot occur inside the quantified class, maximal munch
  is the only candidate the engine can accept, and the matcher exploits that;
  these spots are noted inline.
- `time.time()` / `datetime.now()` values are a `ℚ` parameter (`now`) passed
  into each call; datetime parsing of a provider's posting date is abstracted
  as an `Option ℚ` epoch value (`none` = missing or unparseable or a parse
  that raises, which the source converts to `0`).
- Floats only occur in the match-score arithmetic as a ratio of two small
  integers scaled by 40; this is modelled exactly with `ℚ`.
- A caught Python exception is modelled by a `Bool` oracle parameter on the
  functions whose `try/except` structure a claim is about.
-/

namespace JobSnipper

/-! ### Basic character and string utilities (ASCII models of Python's) -/

/-- ASCII model of Python's `str.strip()` / regex `\s` whitespace class. -/
def isPySpace (c : Char) : Bool :=
  c == ' ' || c == '\t' || c == '\n' || c == '\r' || c == '\x0b' || c == '\x0c'

/-- Model of the regex word class `\w` (ASCII part). -/
def isWordC (c : Char) : Bool := c.isAlphanum || c == '_'

/-- Drop characters satisfying `p` from both ends of a list, like Python's
`str.strip(chars)`. -/
def stripEnds (p : Char → Bool) (l : List Char) : List Char :=
  ((l.dropWhile p).reverse.dropWhile p).reverse

/-- Python `str.strip()` on a `String`. -/
def pyStrip (s : String) : String := ⟨stripEnds isPySpace s.data⟩

/-- Python `str.lower()` (ASCII model). -/
def pyLower (s : String) : String := ⟨s.data.map Char.toLower⟩

/-- Is `needle` a leading block of `hay`? (helper for substring search). -/
def leadsList (needle hay : List Char) : Bool :=
  match needle, hay with
  | [], _ => true
  | _ :: _, [] => false
  | a :: as, b :: bs => a == b && leadsList as bs

/-- Does `hay` contain `needle` as a contiguous substring?  Models Python's
`needle in hay` on strings (in particular the empty needle is contained in
everything). -/
def containsSubL (hay needle : List Char) : Bool :=
  match hay with
  | [] => needle.isEmpty
  | _ :: t => leadsList needle hay || containsSubL t needle

/-- String-level substring containment: Python's `needle in hay`. -/
def containsSub (hay needle : String) : Bool := containsSubL hay.data needle.data

/-- Split a character list at every character satisfying `p`, keeping empty
pieces — the behaviour of `re.split` on a single-character class. -/
def splitOnP (p : Char → Bool) : List Char → List (List Char)
  | [] => [[]]
  | c :: cs =>
    if p c then [] :: splitOnP p cs
    else
      match splitOnP p cs with
      | [] => [[c]]
      | h :: t => (c :: h) :: t

/-- First `some` produced by `f` over a list of candidates, in order — the
backtracking engine's "try the candidates in priority order" step. -/
def firstSome : List α → (α → Option β) → Option β
  | [], _ => none
  | a :: as, f =>
    match f a with
    | some b => some b
    | none => firstSome as f

/-! ### `uniq` — the order-preserving dedupe of `resume_parser.py` (lines 93-101)

```python
def uniq(seq):
    seen = set()
    out = []
    for x in seq:
        k = x.strip().lower()
        if k and k not in seen:
            seen.add(k)
            out.append(x.strip())
    return out
```
-/

/-- The key under which `uniq` deduplicates: `x.strip().lower()`. -/
def uniqKey (x : String) : String := pyLower (pyStrip x)

/-- Loop of `uniq`, with the `seen` set carried as a list of keys. -/
def uniqGo (seen : List String) : List String → List String
  | [] => []
  | x :: xs =>
    if !(uniqKey x == "") && !(seen.contains (uniqKey x)) then
      pyStrip x :: uniqGo (uniqKey x :: seen) xs
    else
      uniqGo seen xs

/-- The `uniq` helper of `parse_resume_to_json`: case-insensitive,
trim-insensitive deduplication preserving first-occurrence order (empty-after-
trim entries are dropped because an empty key is falsy in Python). -/
def uniq (l : List String) : List String := uniqGo [] l

/-! ### Skills-section extraction (`resume_parser.py` lines 4-34)

```python
skills_section_pattern = r"(?i)(skills?|technical\s+skills?|core\s+competenc(?:y|ies)|expertise|proficiencies?)[\s:]*\n(.*?)(?=\n\n|\n[A-Z][A-Z\s]+:|\Z)"
skills_section_match = re.search(skills_section_pattern, raw_text, re.DOTALL)
```

The matcher below implements exactly this pattern under `re.search` with
`re.IGNORECASE` (which also makes `[A-Z]` match lowercase letters) and
`re.DOTALL` (so the lazy `(.*?)` group may cross newlines):

- the header alternation is tried in pattern order, with the greedy `s?` /
  `(?:y|ies)` options tried longest-first, producing an ordered candidate list;
- `[\s:]*` is greedy with backtracking: the engine takes the longest run of
  `[\s:]` characters and then gives characters back one at a time until the
  mandatory `\n` matches (only positions carrying a `'\n'` can succeed);
- once `[\s:]*\n` has matched, the lazy group `(.*?)` grows from the empty
  string until the lookahead `(?=\n\n|\n[A-Z][A-Z\s]+:|\Z)` holds; since the
  `\Z` branch always holds at the end of the input, this continuation never
  fails, so the first `'\n'` position accepted by the greedy `[\s:]*` step is
  the one the whole match commits to.
-/

/-- The `[\s:]` class. -/
def inSC (c : Char) : Bool := isPySpace c || c == ':'

/-- Case-insensitive literal match (the pattern is given in lowercase);
returns the remainder of the input on success. -/
def matchLitCI : List Char → List Char → Option (List Char)
  | [], s => some s
  | _ :: _, [] => none
  | p :: ps, c :: cs => if c.toLower == p then matchLitCI ps cs else none

/-- Candidate remainders (in backtracking priority order) of one literal. -/
def litCands (pat : List Char) (s : List Char) : List (List Char) :=
  match matchLitCI pat s with
  | some r => [r]
  | none => []

/-- Candidates for `technical\s+skills?`.  `\s+` is greedy; since the
following literal starts with `s` (not whitespace) only the maximal run of
whitespace can be accepted, so it is deterministic. -/
def techCands (s : List Char) : List (List Char) :=
  match matchLitCI "technical".data s with
  | none => []
  | some r =>
    let sp := r.takeWhile isPySpace
    if sp.length == 0 then []
    else
      let r2 := r.drop sp.length
      litCands "skills".data r2 ++ litCands "skill".data r2

/-- Candidates for `core\s+competenc(?:y|ies)` (alternation in pattern
order). -/
def coreCands (s : List Char) : List (List Char) :=
  match matchLitCI "core".data s with
  | none => []
  | some r =>
    let sp := r.takeWhile isPySpace
    if sp.length == 0 then []
    else
      let r2 := r.drop sp.length
      match matchLitCI "competenc".data r2 with
      | none => []
      | some r3 => litCands "y".data r3 ++ litCands "ies".data r3

/-- All candidate remainders after the header alternation
`(skills?|technical\s+skills?|core\s+competenc(?:y|ies)|expertise|proficiencies?)`,
in the order the regex engine tries them. -/
def headerCandidates (s : List Char) : List (List Char) :=
  litCands "skills".data s ++ litCands "skill".data s
    ++ techCands s
    ++ coreCands s
    ++ litCands "expertise".data s
    ++ litCands "proficiencies".data s ++ litCands "proficiencie".data s

/-- Greedy `[\s:]*` followed by a mandatory `\n`: try consuming `j` class
characters for `j` descending, and accept the first `j` whose next character
is `'\n'`; returns the remainder after that newline. -/
def tryNL (s : List Char) : Nat → Option (List Char)
  | 0 => if s.get? 0 == some '\n' then some (s.drop 1) else none
  | j + 1 =>
    if s.get? (j + 1) == some '\n' then some (s.drop (j + 2))
    else tryNL s j

/-- Match `[\s:]*\n` at the start of `s` with greedy backtracking. -/
def classStarNL (s : List Char) : Option (List Char) :=
  tryNL s (s.takeWhile inSC).length

/-- Letters as `[A-Z]` matches them under `re.IGNORECASE` (both cases). -/
def reLetterAZ (c : Char) : Bool := c.isAlpha

/-- The `[A-Z\s]+:` tail of the second lookahead branch.  `[A-Z\s]+` is
greedy; `':'` is outside the class, so only the maximal run can precede it. -/
def headerColonTail (l : List Char) : Bool :=
  let m := l.takeWhile (fun c => reLetterAZ c || isPySpace c)
  decide (1 ≤ m.length) && ((l.drop m.length).head? == some ':')

/-- The lookahead `(?=\n\n|\n[A-Z][A-Z\s]+:|\Z)` at the current position. -/
def lookaheadB : List Char → Bool
  | [] => true
  | c :: cs =>
    if c == '\n' then
      match cs with
      | [] => false
      | c2 :: cs2 => if c2 == '\n' then true else reLetterAZ c2 && headerColonTail cs2
    else false

/-- The lazy `(.*?)` group: grow until the lookahead holds (it always holds at
the end of input, via `\Z`). -/
def lazyGroup : List Char → List Char
  | [] => []
  | c :: cs => if lookaheadB (c :: cs) then [] else c :: lazyGroup cs

/-- Try to match the whole section pattern at the current position; returns
the text captured by group 2 on success. -/
def matchSkillsAt (s : List Char) : Option (List Char) :=
  firstSome (headerCandidates s) fun r =>
    match classStarNL r with
    | none => none
    | some r2 => some (lazyGroup r2)

/-- Model of `re.search`: leftmost matching position wins. -/
def searchSkills : List Char → Option (List Char)
  | [] => none
  | c :: cs =>
    match matchSkillsAt (c :: cs) with
    | some g => some g
    | none => searchSkills cs

/-- The split class `[,|•·\n;]` of `re.split` on line 21. -/
def isDelim (c : Char) : Bool :=
  c == ',' || c == '|' || c == '•' || c == '·' || c == '\n' || c == ';'

/-- The bullet glyphs stripped from each candidate: `'•·-*→◦■□'`. -/
def isBullet (c : Char) : Bool :=
  c == '•' || c == '·' || c == '-' || c == '*' || c == '→' || c == '◦' ||
    c == '■' || c == '□'

/-- The connector stop-list of line 29 (matched case-insensitively and
anchored, i.e. by whole-string equality after lowering). -/
def stopWords : List String :=
  ["and", "or", "the", "with", "including", "such as", "etc"]

/-- Per-item cleaning and validation (lines 25-30): strip whitespace, strip
bullet glyphs, keep 2-50 character items containing a letter that are not
stop-words. -/
def processItem (it : List Char) : Option String :=
  let sk := stripEnds isBullet (stripEnds isPySpace it)
  if !sk.isEmpty && decide (2 ≤ sk.length) && decide (sk.length ≤ 50) &&
      sk.any Char.isAlpha && !(stopWords.contains ⟨sk.map Char.toLower⟩) then
    some ⟨sk⟩
  else
    none

/-- Embedding of `_extract_skills_from_text`: find the skills section, split its body on
the delimiter class, clean/validate each piece, cap at 100 items.  Returns
`[]` when the section pattern does not match anywhere. -/
def extract_skills_from_text (raw : String) : List String :=
  match searchSkills raw.data with
  | none => []
  | some g => (((splitOnP isDelim g).filterMap processItem).take 100)

/-- The skills field a parsed resume ends up with: the section extraction
composed with the order-preserving dedupe `uniq` applied in
`parse_resume_to_json` (line 108). -/
def extractSkills (raw : String) : List String :=
  uniq (extract_skills_from_text raw)

/-! ### A structured family of resume texts with a skills section

`mkResumeText h items rest` is a resume text that starts with a
skills-section header `h`, a colon and a newline, then the comma-separated
list `items`, a blank line, and arbitrary further text.  The claims about
"resume text containing a skills-section header followed by a comma-separated
list" are formalised over this family. -/

/-- Join items with `", "` — the comma-separated list of the section body. -/
def joinComma : List (List Char) → List Char
  | [] => []
  | [x] => x
  | x :: y :: t => x ++ (',' :: ' ' :: joinComma (y :: t))

/-- A resume text of the structured family. -/
def mkResumeText (h : String) (items : List String) (rest : String) : String :=
  ⟨h.data ++ (':' :: '\n' :: (joinComma (items.map String.data) ++ ('\n' :: '\n' :: rest.data)))⟩

/-- The five header spellings named by the claim. -/
def headerChoices : List String :=
  ["Skills", "Technical Skills", "Core Competencies", "Expertise", "Proficiencies"]

/-- List items that keep the family well-formed: no item contains a character
of the split class (so the comma-separated structure survives), the list is
non-empty, and the first item starts with a character outside `[\s:]` (so the
greedy `[\s:]*` stops at the header's own newline). -/
def noDelims (l : List Char) : Bool := l.all fun c => !isDelim c

/-- The first character of the first item must fall outside `[\s:]`. -/
def headCharOk : List Char → Bool
  | [] => false
  | c :: _ => !inSC c

/-- The item list is non-empty and its first item starts well. -/
def headOk : List String → Bool
  | [] => false
  | i0 :: _ => headCharOk i0.data

/-- Well-formedness of the item list of the structured family. -/
def itemsOkB (items : List String) : Bool :=
  headOk items && items.all fun it => noDelims it.data

/-- Case-insensitive dedupe keeping first occurrences (claim-side helper). -/
def dedupCIGo (seen : List String) : List String → List String
  | [] => []
  | x :: xs =>
    if seen.contains (pyLower x) then dedupCIGo seen xs
    else x :: dedupCIGo (pyLower x :: seen) xs

/-- Spec-side reading of claim C1 (for refutation): "the items of that list
after trimming and case-insensitive deduplication, in first-occurrence
order" — split the body on commas, trim each item, deduplicate by lowercase
key keeping first occurrences. -/
def claimListItems (body : String) : List String :=
  dedupCIGo [] ((splitOnP (fun c => c == ',') body.data).map fun l => (⟨stripEnds isPySpace l⟩ : String))

/-! ### The remaining field extractors of `parse_resume_to_json`
(`resume_parser.py` lines 50-90) -/

/-- Generic `re.findall` loop for patterns that match a computable length at
each position: non-overlapping scan, moving one character forward when no
match starts here.  `fuel` is an upper bound on the number of steps; it is
instantiated with the input length, which suffices because every step consumes
at least one character. -/
def findallLen (matchAt : List Char → Option Nat) : Nat → List Char → List (List Char)
  | 0, _ => []
  | _, [] => []
  | fuel + 1, c :: cs =>
    match matchAt (c :: cs) with
    | some n => (c :: cs).take n :: findallLen matchAt fuel ((c :: cs).drop n)
    | none => findallLen matchAt fuel cs

/-- Ordered alternation of case-insensitive literals, returning the matched
length. -/
def altLitsAt (alts : List (List Char)) (s : List Char) : Option Nat :=
  firstSome alts fun a => (matchLitCI a s).map fun _ => a.length

/-- The degree alternatives of the education pattern
`(B\.Sc|M\.Sc|B\.Tech|M\.Tech|PhD|MBA|Bachelor|Master|Associate)` (matched
with `re.I`; each alternative is a literal, `\.` being a literal dot). -/
def eduAlts : List (List Char) :=
  ["b.sc", "m.sc", "b.tech", "m.tech", "phd", "mba", "bachelor", "master",
    "associate"].map String.data

/-- Embedding of `re.findall(education_pattern, raw_text, re.I)` (line 52). -/
def extractEducation (raw : String) : List String :=
  (findallLen (altLitsAt eduAlts) raw.data.length raw.data).map fun l => (⟨l⟩ : String)

/-- Greedy optional single character: consume-first candidate order. -/
def optChar (p : Char → Bool) (s : List Char) : List (List Char) :=
  match s with
  | c :: cs => if p c then [cs, c :: cs] else [c :: cs]
  | [] => [[]]

/-- First alternative of the experience pattern: `\d+\+?\s?years`.  `\d+` is
greedy and the following characters (`+`, whitespace, `y`) are not digits, so
only the maximal digit run can be accepted; the two optional single
characters are tried greedily (present first). -/
def matchNumYearsAt (s : List Char) : Option Nat :=
  let ds := s.takeWhile Char.isDigit
  if ds.length == 0 then none
  else
    let rem := s.drop ds.length
    (firstSome (optChar (fun c => c == '+') rem) fun r1 =>
      firstSome (optChar isPySpace r1) fun r2 =>
        (matchLitCI "years".data r2).map fun r3 => r3.length).map
      fun rlen => s.length - rlen

/-- Position matcher for the experience pattern
`(\d+\+?\s?years|internship|project|worked at|experience)` (with `re.I`). -/
def expMatchAt (s : List Char) : Option Nat :=
  match matchNumYearsAt s with
  | some n => some n
  | none =>
    altLitsAt (["internship", "project", "worked at", "experience"].map String.data) s

/-- Embedding of `re.findall(experience_pattern, raw_text, re.I)` (line 56). -/
def extractExperienceMatches (raw : String) : List String :=
  (findallLen expMatchAt raw.data.length raw.data).map fun l => (⟨l⟩ : String)

/-- The email local/domain class `[\w\.-]`. -/
def inEmailClass (c : Char) : Bool := isWordC c || c == '.' || c == '-'

/-- Backtracking for the domain of `[\w\.-]+@[\w\.-]+\.\w+`: after the
maximal class run `dp`, find the largest split `j ≥ 1` such that `dp` carries
a literal `'.'` at position `j` followed by at least one `\w` character;
returns the consumed length `j + 1 + (length of the maximal \w run)`. -/
def tryDomainDot (dp : List Char) : Nat → Option Nat
  | 0 => none
  | j + 1 =>
    if dp.get? (j + 1) == some '.' then
      let k := ((dp.drop (j + 2)).takeWhile isWordC).length
      if k == 0 then tryDomainDot dp j else some (j + 1 + 1 + k)
    else tryDomainDot dp j

/-- Try the email pattern `[\w\.-]+@[\w\.-]+\.\w+` at this position.  The
local part is deterministic maximal munch because `@` is outside the class;
the domain backtracks over dot positions from the right. -/
def matchEmailAt (s : List Char) : Option Nat :=
  let lp := s.takeWhile inEmailClass
  if lp.length == 0 then none
  else
    let rem := s.drop lp.length
    match rem with
    | '@' :: rem2 =>
      let dp := rem2.takeWhile inEmailClass
      match tryDomainDot dp dp.length with
      | some n => some (lp.length + 1 + n)
      | none => none
    | _ => none

/-- Model of `re.search` returning the matched text (`group(0)`), leftmost position
first. -/
def searchMatch (matchAt : List Char → Option Nat) : List Char → Option (List Char)
  | [] => none
  | c :: cs =>
    match matchAt (c :: cs) with
    | some n => some ((c :: cs).take n)
    | none => searchMatch matchAt cs

/-- Email extraction (lines 59-60): first match of the email pattern, else
the empty string. -/
def extractEmail (raw : String) : String :=
  match searchMatch matchEmailAt raw.data with
  | some m => ⟨m⟩
  | none => ""

/-- The separator class `[-.\s]` of the phone pattern. -/
def sepC (c : Char) : Bool := c == '-' || c == '.' || isPySpace c

/-- Greedy `\d{1,3}`: candidate remainders after consuming 3, 2, then 1
digits (bounded by the available digit run). -/
def digitTakes (s : List Char) (maxN : Nat) : List (List Char) :=
  let a := min (s.takeWhile Char.isDigit).length maxN
  (List.range a).map fun k => s.drop (a - k)

/-- Candidate remainders of the optional group `(\+?\d{1,3}[-.\s]?)?` in
backtracking order (group present before group absent). -/
def phoneG1 (s : List Char) : List (List Char) :=
  ((optChar (fun c => c == '+') s).flatMap fun r1 =>
    (digitTakes r1 3).flatMap fun r2 => optChar sepC r2) ++ [s]

/-- Candidate remainders of the optional group `(\(?\d{3}\)?[-.\s]?)?`
(`\d{3}` is an exact count, no backtracking inside it). -/
def phoneG2 (s : List Char) : List (List Char) :=
  ((optChar (fun c => c == '(') s).flatMap fun r1 =>
    (if decide (3 ≤ r1.length) && (r1.take 3).all Char.isDigit then [r1.drop 3] else []).flatMap
      fun r2 => (optChar (fun c => c == ')') r2).flatMap fun r3 => optChar sepC r3) ++ [s]

/-- The mandatory core `\d{3}[-.\s]?\d{4}` of the phone pattern. -/
def phoneCore (s : List Char) : Option (List Char) :=
  if decide (3 ≤ s.length) && (s.take 3).all Char.isDigit then
    firstSome (optChar sepC (s.drop 3)) fun r =>
      if decide (4 ≤ r.length) && (r.take 4).all Char.isDigit then some (r.drop 4)
      else none
  else none

/-- Try the phone pattern
`(\+?\d{1,3}[-.\s]?)?(\(?\d{3}\)?[-.\s]?)?\d{3}[-.\s]?\d{4}` at this
position, exploring the optional-group candidates in engine order. -/
def matchPhoneAt (s : List Char) : Option Nat :=
  (firstSome (phoneG1 s) fun r1 =>
    firstSome (phoneG2 r1) fun r2 => phoneCore r2).map fun rem => s.length - rem.length

/-- Phone extraction (lines 63-64). -/
def extractPhone (raw : String) : String :=
  match searchMatch matchPhoneAt raw.data with
  | some m => ⟨m⟩
  | none => ""

/-- Python `str.splitlines()` restricted to the ASCII terminators `\n`, `\r`,
`\r\n` (the only ones resume text produced by the upstream document extractor
contains). -/
def splitLinesGo : Nat → List Char → List (List Char)
  | 0, _ => []
  | _, [] => []
  | fuel + 1, l =>
    let line := l.takeWhile fun c => !(c == '\n') && !(c == '\r')
    match l.drop line.length with
    | '\r' :: '\n' :: r2 => line :: splitLinesGo fuel r2
    | _ :: r2 => line :: splitLinesGo fuel r2
    | [] => [line]

/-- Python `str.splitlines()`. -/
def splitLinesPy (l : List Char) : List (List Char) := splitLinesGo (l.length + 1) l

/-- Python `str.split()` with no argument: split on whitespace runs, dropping
empty pieces. -/
def pySplitWs (l : List Char) : List (List Char) :=
  (splitOnP isPySpace l).filter fun p => !p.isEmpty

/-- Anchored match of `(?i)name[:\-]\s*(.+)` against one (already stripped)
line, returning group 1.  `\s*` is greedy and backtracks until `.+` can take
at least one non-newline character; `.+` then greedily extends to the line
end. -/
def tryDotPlus (s : List Char) : Nat → Option (List Char)
  | 0 =>
    match s.get? 0 with
    | some c => if c == '\n' then none else some (s.takeWhile fun c => !(c == '\n'))
    | none => none
  | j + 1 =>
    match s.get? (j + 1) with
    | some c =>
      if c == '\n' then tryDotPlus s j
      else some ((s.drop (j + 1)).takeWhile fun c => !(c == '\n'))
    | none => tryDotPlus s j

/-- Greedy `\s*` followed by the capture `(.+)`: take the maximal whitespace
run, then give back characters until `.+` can start. -/
def classSpaceStarDotPlus (s : List Char) : Option (List Char) :=
  tryDotPlus s (s.takeWhile isPySpace).length

/-- Embedding of `re.match(r"(?i)name[:\-]\s*(.+)", l)` returning group 1. -/
def nameLabelMatch (l : List Char) : Option (List Char) :=
  match matchLitCI "name".data l with
  | none => none
  | some r =>
    match r with
    | c :: r2 =>
      if c == ':' || c == '-' then classSpaceStarDotPlus r2 else none
    | [] => none

/-- The name heuristic (lines 66-80): scan the first 8 non-blank stripped
lines for a `Name:` label; if the resulting name is empty, take the first of
the first 6 lines that has no `@`, no digit, and 1-4 whitespace-separated
words. -/
def extractName (raw : String) : String :=
  let lines := ((splitLinesPy raw.data).map (stripEnds isPySpace)).filter fun l => !l.isEmpty
  let labelled :=
    match firstSome (lines.take 8) nameLabelMatch with
    | some g => (⟨stripEnds isPySpace g⟩ : String)
    | none => ""
  if labelled == "" then
    match lines.take 6 |>.filter (fun l =>
        !(l.contains '@') && !(l.any Char.isDigit) &&
          decide (1 ≤ (pySplitWs l).length) && decide ((pySplitWs l).length ≤ 4)) with
    | l :: _ => ⟨l⟩
    | [] => ""
  else labelled

/-- Position matcher for `(?i)(location|address)[:\-]\s*(.+)` returning
group 2. -/
def locLabelAt (s : List Char) : Option (List Char) :=
  firstSome (litCands "location".data s ++ litCands "address".data s) fun r =>
    match r with
    | c :: r2 => if c == ':' || c == '-' then classSpaceStarDotPlus r2 else none
    | [] => none

/-- Leftmost search for a pattern needing the previous character (for `\b`). -/
def searchMatchB (matchAt : Option Char → List Char → Option Nat) :
    Option Char → List Char → Option (List Char)
  | _, [] => none
  | prev, c :: cs =>
    match matchAt prev (c :: cs) with
    | some n => some ((c :: cs).take n)
    | none => searchMatchB matchAt (some c) cs

/-- Word-boundary test between an optional previous character and an optional
current character. -/
def atBoundary (prev cur : Option Char) : Bool :=
  (match prev with | some c => isWordC c | none => false) !=
    (match cur with | some c => isWordC c | none => false)

/-- Try `\b([A-Za-z ]+),\s*([A-Z]{2}|\b[A-Za-z]{2,}\b)\b` (case-sensitive, no
flags) at this position, returning the length of `group(0)`.
`[A-Za-z ]+` is deterministic maximal munch (`','` is outside the class), as
are `\s*` (both group-2 branches must start with a letter) and
`[A-Za-z]{2,}` (shortening it leaves a letter on both sides of the required
`\b`, which can never hold). -/
def cityStateAt (prev : Option Char) (s : List Char) : Option Nat :=
  if !atBoundary prev (s.head?) then none
  else
    let a := s.takeWhile fun c => c.isAlpha || c == ' '
    if a.length == 0 then none
    else
      match s.drop a.length with
      | ',' :: rem =>
        let sp := rem.takeWhile isPySpace
        let rem2 := rem.drop sp.length
        let prev2 : Option Char := if sp.length == 0 then some ',' else sp.getLast?
        let alt1 : Option Nat :=
          if decide (2 ≤ rem2.length) && (rem2.take 2).all Char.isUpper &&
              atBoundary (rem2.get? 1) (rem2.get? 2) then
            some 2
          else none
        let alt2 : Option Nat :=
          let b := rem2.takeWhile Char.isAlpha
          if atBoundary prev2 rem2.head? && decide (2 ≤ b.length) &&
              atBoundary (b.getLast?) (rem2.get? b.length) then
            some b.length
          else none
        match (match alt1 with | some n => some n | none => alt2) with
        | some n2 => some (a.length + 1 + sp.length + n2)
        | none => none
      | _ => none

/-- Leftmost search returning a captured group instead of `group(0)`. -/
def searchGroup (matchAt : List Char → Option (List Char)) : List Char → Option (List Char)
  | [] => none
  | c :: cs =>
    match matchAt (c :: cs) with
    | some g => some g
    | none => searchGroup matchAt cs

/-- The location heuristic (lines 82-90): explicit `Location:`/`Address:`
label (group 2, stripped), else the first `City, ST`-shaped match
(`group(0)`, not stripped), else the empty string. -/
def extractLocation (raw : String) : String :=
  match searchGroup locLabelAt raw.data with
  | some g => ⟨stripEnds isPySpace g⟩
  | none =>
    match searchMatchB cityStateAt none raw.data with
    | some m => ⟨m⟩
    | none => ""

/-! ### `parse_resume_to_json` (`resume_parser.py` lines 37-115)

The Python function wraps all extraction in `try/except`; whether some step
raises is an external event (it cannot happen for the pure embedded
extractors, but the source defends against it), modelled by the `raised`
oracle.  On the error path the function returns a dict with exactly the keys
`skills`, `education`, `experience`, `raw_text` (the first three empty); on
the success path it returns the eight-key dict. -/

/-- A Python dict value: a string or a list of strings. -/
inductive PyVal where
  | s (v : String)
  | l (v : List String)
deriving DecidableEq, Repr

/-- The embedded `parse_resume_to_json`, as an ordered key/value list. -/
def parse_resume_to_json (raw : String) (raised : Bool) : List (String × PyVal) :=
  if raised then
    [("skills", .l []), ("education", .l []), ("experience", .l []),
      ("raw_text", .s raw)]
  else
    [("name", .s (extractName raw)),
      ("email", .s (extractEmail raw)),
      ("phone", .s (extractPhone raw)),
      ("location", .s (extractLocation raw)),
      ("skills", .l (uniq (extract_skills_from_text raw))),
      ("education", .l (uniq (extractEducation raw))),
      ("experience", .l (uniq (extractExperienceMatches raw))),
      ("raw_text", .s raw)]

/-! ### The job aggregator (`real_job_search.py`)

State, inputs and the network oracle.  The aggregator's process-wide state is
the result cache and the two per-provider rate-limit records; the clock is the
`now` parameter; the network is an oracle giving, per provider, either the
parsed JSON payload the provider would answer with or `fail` (covering
connection errors, non-2xx responses — `raise_for_status` — and malformed
JSON).  A trace of the providers actually contacted is returned so that
"performs no network calls" is a provable statement. -/

/-- Computable rational addition.  (The library's `Rat.add` is marked
irreducible, which blocks kernel evaluation of concrete states; these
wrappers compute the same values through `mkRat` — see `qAdd_eq` and
friends below.) -/
def qAdd (a b : ℚ) : ℚ := mkRat (a.num * b.den + b.num * a.den) (a.den * b.den)

/-- Computable rational subtraction. -/
def qSub (a b : ℚ) : ℚ := mkRat (a.num * b.den - b.num * a.den) (a.den * b.den)

/-- Computable rational multiplication. -/
def qMul (a b : ℚ) : ℚ := mkRat (a.num * b.num) (a.den * b.den)

/-- Computable rational division. -/
def qDiv (a b : ℚ) : ℚ :=
  mkRat (a.num * b.den * (if b.num < 0 then -1 else 1)) (a.den * b.num.natAbs)

/-- Immutable search parameters (`search_query` keys used by the source). -/
structure SearchQuery where
  keywords : String
  location : String
  experience_level : String
deriving DecidableEq, Repr

/-- The fields of `parsed_resume` the aggregator reads
(`parsed_resume.get('skills'/'experience'/'location')`). -/
structure ResumeData where
  skills : List String
  experience : List String
  location : String
deriving DecidableEq, Repr

/-- A job listing dict.  `match_score`/`matched_skills` are absent until
`_calculate_match_scores` sets them, hence the `Option`/default. -/
structure Job where
  title : String
  company : String
  location : String
  description : String
  url : String
  salary : String
  remote : Bool
  hybrid : Bool
  days_ago : Int
  source : String
  match_score : Option Int := none
  matched_skills : List String := []
deriving DecidableEq, Repr, Inhabited

/-- One parsed record of an Adzuna response, with exactly the fields
`_search_adzuna` reads.  `created` is the posting datetime already parsed to
epoch seconds; `none` stands for a missing field or a value whose parsing
inside `_calculate_days_ago` raises (the source turns that into `0` days). -/
structure AdzunaRawJob where
  title : String
  company_display_name : String
  location_display_name : String
  description : String
  redirect_url : String
  salary_min : Option Int
  salary_max : Option Int
  created : Option ℚ
deriving DecidableEq, Repr

/-- One parsed record of a RapidAPI JSearch response. -/
structure RapidRawJob where
  job_title : String
  employer_name : String
  job_location : String
  job_description : String
  job_apply_link : String
  job_salary_min : Option Int
  job_salary_max : Option Int
  job_is_remote : Bool
  job_posted_at : Option ℚ
deriving DecidableEq, Repr

/-- What a provider call would yield if made. -/
inductive NetResp (α : Type) where
  | ok (items : List α)
  | fail
deriving DecidableEq

/-- The network oracle for one search call. -/
structure Net where
  adzuna : NetResp AdzunaRawJob
  rapidapi : NetResp RapidRawJob
deriving DecidableEq

/-- Provider tags, also used as the network-call trace alphabet. -/
inductive Provider where
  | adzuna
  | rapidapi
deriving DecidableEq, Repr

/-- Per-provider rate-limit record: `{'calls': ..., 'reset_time': ...}`. -/
structure RateInfo where
  calls : Nat
  reset_time : ℚ
deriving DecidableEq, Repr

/-- The aggregator's mutable state (`self.cache`, `self.rate_limits`) plus
the credential flags computed in `__init__`. -/
structure AggState where
  cache : List ((SearchQuery × Nat) × (List Job × ℚ))
  adzuna_rl : RateInfo
  rapidapi_rl : RateInfo
  has_adzuna : Bool
  has_rapidapi : Bool
deriving DecidableEq

/-- Python dict lookup on the cache.  The source keys the cache by
`f"{hash(str(search_query))}_{max_results}"`; within one process equal
query/count pairs give equal keys, which is what the pair key models. -/
def cacheLookup (cache : List ((SearchQuery × Nat) × (List Job × ℚ)))
    (key : SearchQuery × Nat) : Option (List Job × ℚ) :=
  match cache.find? fun e => decide (e.1 = key) with
  | some e => some e.2
  | none => none

/-- Python dict store `self.cache[key] = value`. -/
def cacheInsert (cache : List ((SearchQuery × Nat) × (List Job × ℚ)))
    (key : SearchQuery × Nat) (v : List Job × ℚ) :
    List ((SearchQuery × Nat) × (List Job × ℚ)) :=
  (key, v) :: cache.filter fun e => !(decide (e.1 = key))

/-- Selector for a provider's rate record. -/
def rlInfo (st : AggState) : Provider → RateInfo
  | .adzuna => st.adzuna_rl
  | .rapidapi => st.rapidapi_rl

/-- Update a provider's rate record. -/
def setRlInfo (st : AggState) : Provider → RateInfo → AggState
  | .adzuna, i => { st with adzuna_rl := i }
  | .rapidapi, i => { st with rapidapi_rl := i }

/-- The hard-coded hourly ceilings of `_is_rate_limited`. -/
def rlCeiling : Provider → Nat
  | .adzuna => 100
  | .rapidapi => 50

/-- Embedding of `_is_rate_limited` (lines 292-311): reset the counter and open a fresh
one-hour window if the reset time has elapsed (strictly passed), then compare
the counter against the provider's ceiling.  Returns the flag and the
(possibly reset) state. -/
def is_rate_limited (p : Provider) (st : AggState) (now : ℚ) : Bool × AggState :=
  if (rlInfo st p).reset_time < now then
    (decide (rlCeiling p ≤ 0), setRlInfo st p ⟨0, qAdd now 3600⟩)
  else
    (decide (rlCeiling p ≤ (rlInfo st p).calls), st)

/-- Truthiness of an optional integer in Python (`None` and `0` are falsy) —
`_format_salary` tests `if not min_sal and not max_sal`, so a present `0`
behaves like an absent value. -/
def truthyInt : Option Int → Bool
  | none => false
  | some n => !(n == 0)

/-- Digit grouping of Python's `f"{n:,}"`. -/
def chunk3 : List Char → List (List Char)
  | [] => []
  | a :: b :: c :: rest => [a, b, c] :: chunk3 rest
  | l => [l]

/-- Python `f"{n:,}"` for an integer. -/
def formatComma (n : Int) : String :=
  let ds := (toString n.natAbs).data
  let grouped := List.intercalate [','] (((chunk3 ds.reverse).map List.reverse).reverse)
  (if n < 0 then "-" else "") ++ (⟨grouped⟩ : String)

/-- Embedding of `_format_salary` (lines 323-333). -/
def format_salary (mn mx : Option Int) : String :=
  if !truthyInt mn && !truthyInt mx then "Not specified"
  else if truthyInt mn && truthyInt mx then
    "$" ++ formatComma (mn.getD 0) ++ " - $" ++ formatComma (mx.getD 0)
  else if truthyInt mn then "$" ++ formatComma (mn.getD 0) ++ "+"
  else "Up to $" ++ formatComma (mx.getD 0)

/-- Embedding of `_calculate_days_ago` (lines 335-349): `0` for a missing or unparseable
date, else the `days` field of `datetime.now() - job_date`, which is the
floor of the signed difference in days (negative for a future date). -/
def calculate_days_ago (now : ℚ) (created : Option ℚ) : Int :=
  match created with
  | none => 0
  | some t => (qDiv (qSub now t) 86400).floor

/-- Field translation of one Adzuna record (lines 129-141). -/
def adzunaToJob (now : ℚ) (j : AdzunaRawJob) : Job where
  title := j.title
  company := j.company_display_name
  location := j.location_display_name
  description := j.description
  url := j.redirect_url
  salary := format_salary j.salary_min j.salary_max
  remote := containsSub (pyLower j.description) "remote"
  hybrid := containsSub (pyLower j.description) "hybrid"
  days_ago := calculate_days_ago now j.created
  source := "Adzuna"

/-- Field translation of one JSearch record (lines 183-195). -/
def rapidToJob (now : ℚ) (j : RapidRawJob) : Job where
  title := j.job_title
  company := j.employer_name
  location := j.job_location
  description := j.job_description
  url := j.job_apply_link
  salary := format_salary j.job_salary_min j.job_salary_max
  remote := j.job_is_remote
  hybrid := containsSub (pyLower j.job_description) "hybrid"
  days_ago := calculate_days_ago now j.job_posted_at
  source := "JSearch"

/-- Embedding of `_search_adzuna` (lines 98-147): skip without a network call when
credentials are absent or the provider is rate-limited; otherwise make the
request (recorded in the trace); on failure return no listings and leave the
counter untouched (the increment sits after the response checks); on success
increment the counter and translate every record of the response (the
requested `results_per_page` only shapes the request — every returned record
is appended).  Returns (listings, state, trace). -/
def search_adzuna (st : AggState) (now : ℚ) (_q : SearchQuery) (_maxr : Nat)
    (net : Net) : List Job × AggState × List Provider :=
  if st.has_adzuna = false then ([], st, [])
  else if (is_rate_limited .adzuna st now).1 = true then
    ([], (is_rate_limited .adzuna st now).2, [])
  else
    match net.adzuna with
    | .fail => ([], (is_rate_limited .adzuna st now).2, [.adzuna])
    | .ok raws =>
      (raws.map (adzunaToJob now),
        setRlInfo (is_rate_limited .adzuna st now).2 .adzuna
          ⟨(rlInfo (is_rate_limited .adzuna st now).2 .adzuna).calls + 1,
            (rlInfo (is_rate_limited .adzuna st now).2 .adzuna).reset_time⟩,
        [.adzuna])

/-- Embedding of `_search_rapidapi` (lines 149-201), structurally identical; the request
never mentions the requested count at all. -/
def search_rapidapi (st : AggState) (now : ℚ) (_q : SearchQuery) (_maxr : Nat)
    (net : Net) : List Job × AggState × List Provider :=
  if st.has_rapidapi = false then ([], st, [])
  else if (is_rate_limited .rapidapi st now).1 = true then
    ([], (is_rate_limited .rapidapi st now).2, [])
  else
    match net.rapidapi with
    | .fail => ([], (is_rate_limited .rapidapi st now).2, [.rapidapi])
    | .ok raws =>
      (raws.map (rapidToJob now),
        setRlInfo (is_rate_limited .rapidapi st now).2 .rapidapi
          ⟨(rlInfo (is_rate_limited .rapidapi st now).2 .rapidapi).calls + 1,
            (rlInfo (is_rate_limited .rapidapi st now).2 .rapidapi).reset_time⟩,
        [.rapidapi])

/-- Python `str.title()` (ASCII model): the first letter of every
alphabetic run is uppercased, the rest lowercased. -/
def pyTitleGo : Bool → List Char → List Char
  | _, [] => []
  | prevAlpha, c :: cs =>
    if c.isAlpha then
      (if prevAlpha then c.toLower else c.toUpper) :: pyTitleGo true cs
    else
      c :: pyTitleGo false cs

/-- Python `str.title()`. -/
def pyTitle (s : String) : String := ⟨pyTitleGo false s.data⟩

/-- The template parameterisation `x.title() if x else dflt` applied to the
lowered query keywords/location (Python truthiness: empty string is falsy). -/
def titleOr (s dflt : String) : String :=
  if pyLower s == "" then dflt else pyTitle (pyLower s)

/-- The three mock templates of `_generate_enhanced_mock_jobs`
(lines 209-237), parameterised by the lowered query keywords/location with
their Python-truthiness defaults.  (`url`, `days_ago` and `source` are
placeholders here; the generation loop always overwrites them, matching the
source where the template dicts lack those keys until `job.update`.) -/
def mockTemplates (q : SearchQuery) : List Job :=
  let kw := titleOr q.keywords "Software Engineer"
  let kwDev := titleOr q.keywords "Developer"
  let kwDevs := titleOr q.keywords "developers"
  let loc1 := titleOr q.location "San Francisco, CA"
  let loc3 := titleOr q.location "New York, NY"
  [⟨"Senior " ++ kw, "TechCorp Inc.", loc1,
      "Join our team as a Senior " ++ kw ++
        ". We're looking for passionate developers to build innovative solutions.",
      "", "$120,000 - $150,000", true, false, 0, "", none, []⟩,
   ⟨kw ++ " - Remote", "StartupXYZ", "Remote",
      "Fully remote position for a " ++ kw ++ ". Work with cutting-edge technologies.",
      "", "$90,000 - $130,000", true, false, 0, "", none, []⟩,
   ⟨"Lead " ++ kwDev, "Enterprise Solutions", loc3,
      "Lead a team of " ++ kwDevs ++ " in building scalable applications.",
      "", "$140,000 - $180,000", false, true, 0, "", none, []⟩]

/-- Embedding of `_generate_enhanced_mock_jobs` (lines 203-253): cycle through the three
templates, numbering titles and companies from the fourth listing on, and
stamp url, `days_ago = i % 7` and the `"Mock Data"` source.  (The
`parsed_resume` parameter of the source is never read.) -/
def generate_enhanced_mock_jobs (q : SearchQuery) (max_results : Nat) : List Job :=
  (List.range max_results).map fun i =>
    let t := (mockTemplates q).getD (i % 3) default
    { t with
      title := if decide (2 < i) then t.title ++ " " ++ toString (i + 1) else t.title
      company := if decide (2 < i) then t.company ++ " " ++ toString (i + 1) else t.company
      url := "https://example.com/job/" ++ toString (i + 1)
      days_ago := ((i % 7 : Nat) : Int)
      source := "Mock Data" }

/-- The lowered `job_text` used by the scorer:
`f"{job.get('title','')} {job.get('description','')}".lower()`. -/
def job_text (job : Job) : String := pyLower (job.title ++ " " ++ job.description)

/-- The lowered resume experience text: `' '.join(resume_experience).lower()`. -/
def resume_exp_text (r : ResumeData) : String :=
  pyLower (String.intercalate " " r.experience)

/-- Seniority keyword detection: `any(exp in text for exp in
['senior', 'lead', 'principal'])`. -/
def hasSeniorityKw (t : String) : Bool :=
  ["senior", "lead", "principal"].any fun k => containsSub t k

/-- The seniority component of the score (lines 270-275): +30 when listing
and resume both carry a seniority keyword, +20 when the listing carries none,
+0 when only the listing does. -/
def seniority_component (job : Job) (r : ResumeData) : ℚ :=
  if hasSeniorityKw (job_text job) then
    (if hasSeniorityKw (resume_exp_text r) then 30 else 0)
  else 20

/-- Truncation of Python `int()` on a (here rational-modelled) float. -/
def pyInt (q : ℚ) : Int := if 0 ≤ q then q.floor else -((-q).floor)

/-- Per-listing body of `_calculate_match_scores` (lines 255-290): skill
overlap (ratio scaled by 40, clipped), seniority, location (+20 for remote,
else +20 when the resume location is a substring of the listing location —
in particular an empty resume location always matches), company-type bonus,
then `min(int(score), 100)` and the first five matched skills. -/
def scoreJob (r : ResumeData) (job : Job) : Job :=
  let resume_skills := r.skills.map pyLower
  let matched := resume_skills.filter fun sk => containsSub (job_text job) sk
  let skill_score : ℚ :=
    if resume_skills.isEmpty then 0
    else min (qMul (qDiv (matched.length : ℚ) (resume_skills.length : ℚ)) 40) 40
  let loc_score : ℚ :=
    if job.remote then 20
    else if containsSub (pyLower job.location) (pyLower r.location) then 20
    else 0
  let comp_score : ℚ :=
    if ["startup", "tech", "software"].any (fun k => containsSub (pyLower job.company) k) then 10
    else 0
  let score := qAdd (qAdd (qAdd skill_score (seniority_component job r)) loc_score) comp_score
  { job with match_score := some (min (pyInt score) 100), matched_skills := matched.take 5 }

/-- Embedding of `_calculate_match_scores` over a listing batch. -/
def calculate_match_scores (jobs : List Job) (r : ResumeData) : List Job :=
  jobs.map (scoreJob r)

/-- Provider A's step inside `search_jobs` (lines 71-76): attempted only
when credentials are present and the result count is still short. -/
def provA (st : AggState) (now : ℚ) (q : SearchQuery) (maxr : Nat) (net : Net) :
    List Job × AggState × List Provider :=
  if st.has_adzuna && decide (0 < maxr) then search_adzuna st now q maxr net
  else ([], st, [])

/-- Provider B's step (lines 79-84), running on provider A's output state. -/
def provB (st : AggState) (now : ℚ) (q : SearchQuery) (maxr : Nat) (net : Net) :
    List Job × AggState × List Provider :=
  if (provA st now q maxr net).2.1.has_rapidapi &&
      decide ((provA st now q maxr net).1.length < maxr) then
    search_rapidapi (provA st now q maxr net).2.1 now q
      (maxr - (provA st now q maxr net).1.length) net
  else ([], (provA st now q maxr net).2.1, [])

/-- The listings gathered before scoring (lines 86-88): provider results if
any, synthetic mock data otherwise. -/
def gatheredJobs (st : AggState) (now : ℚ) (q : SearchQuery) (maxr : Nat) (net : Net) :
    List Job :=
  if ((provA st now q maxr net).1 ++ (provB st now q maxr net).1).isEmpty then
    generate_enhanced_mock_jobs q maxr
  else (provA st now q maxr net).1 ++ (provB st now q maxr net).1

/-- The provider/fallback pipeline of `search_jobs` (lines 68-91) before the
cache write: provider A when configured and short of `max_results`, provider
B likewise, synthetic mock data when nothing was obtained, then scoring. -/
def aggregatePipeline (st : AggState) (now : ℚ) (r : ResumeData) (q : SearchQuery)
    (maxr : Nat) (net : Net) : List Job × AggState × List Provider :=
  (calculate_match_scores (gatheredJobs st now q maxr net) r,
    (provB st now q maxr net).2.1,
    (provA st now q maxr net).2.2 ++ (provB st now q maxr net).2.2)

/-- The cache-miss tail of `search_jobs`: run the pipeline, store the FULL
scored list under the key with the current timestamp (line 94), and return
only the first `max_results` listings (line 96). -/
def searchMiss (st : AggState) (now : ℚ) (r : ResumeData) (q : SearchQuery)
    (maxr : Nat) (net : Net) : List Job × AggState × List Provider :=
  let p := aggregatePipeline st now r q maxr net
  (p.1.take maxr,
    { p.2.1 with cache := cacheInsert p.2.1.cache (q, maxr) (p.1, now) },
    p.2.2)

/-- Embedding of `RealJobSearch.search_jobs` (lines 42-96): return the cached value
as-is — untruncated, with no network call and no state change — when a cache
entry younger than 3600 seconds exists; otherwise run the pipeline and cache.
-/
def search_jobs (st : AggState) (now : ℚ) (r : ResumeData) (q : SearchQuery)
    (maxr : Nat) (net : Net) : List Job × AggState × List Provider :=
  match cacheLookup st.cache (q, maxr) with
  | some (data, ts) =>
    if qSub now ts < 3600 then (data, st, [])
    else searchMiss st now r q maxr net
  | none => searchMiss st now r q maxr net

/-- The minimal fallback listing of the agent wrapper
(`jobsearch_agent.py` lines 25-37). -/
def fallbackListing : Job where
  title := "Software Engineer"
  company := "Tech Company"
  location := "Remote"
  description := "Software engineering position"
  url := "#"
  match_score := some 50
  salary := "Not specified"
  remote := true
  hybrid := false
  days_ago := 1
  source := "Fallback"

/-- Embedding of `agents/jobsearch_agent.search_jobs`: the top-level wrapper returning the
single fallback listing when anything raises (`raised` oracle, as for the
parser). -/
def agent_search_jobs (st : AggState) (now : ℚ) (r : ResumeData) (q : SearchQuery)
    (maxr : Nat) (net : Net) (raised : Bool) : List Job × AggState × List Provider :=
  if raised then ([fallbackListing], st, [])
  else search_jobs st now r q maxr net

/-! ### Claim-side decidable predicates on aggregator outputs -/

/-- A listing carries a match score that is an integer in [0, 100]. -/
def scoreOk (j : Job) : Bool :=
  match j.match_score with
  | none => false
  | some m => decide (0 ≤ m) && decide (m ≤ 100)

/-- A listing's `days_ago` is non-negative. -/
def daysOk (j : Job) : Bool := decide (0 ≤ j.days_ago)

/-- There is a cache entry for this key that is still fresh at `now`. -/
def cacheFreshB (cache : List ((SearchQuery × Nat) × (List Job × ℚ)))
    (key : SearchQuery × Nat) (now : ℚ) : Bool :=
  match cacheLookup cache key with
  | some (_, ts) => decide (qSub now ts < 3600)
  | none => false

/-- A posting timestamp is absent or lies in the past. -/
def dateOk (now : ℚ) : Option ℚ → Bool
  | none => true
  | some t => decide (t ≤ now)

/-- Provider A's response carries no future posting date. -/
def adzunaDatesOk (net : Net) (now : ℚ) : Bool :=
  match net.adzuna with
  | .ok l => l.all fun j => dateOk now j.created
  | .fail => true

/-- Provider B's response carries no future posting date. -/
def rapidDatesOk (net : Net) (now : ℚ) : Bool :=
  match net.rapidapi with
  | .ok l => l.all fun j => dateOk now j.job_posted_at
  | .fail => true

/-- Every posting timestamp the network oracle would deliver lies in the
past (or is absent). -/
def netDatesOk (net : Net) (now : ℚ) : Bool :=
  adzunaDatesOk net now && rapidDatesOk net now

/-- Every listing already cached has a non-negative `days_ago`. -/
def cacheDaysOk (st : AggState) : Bool :=
  st.cache.all fun e => e.2.1.all daysOk

/-! ## Theorems -/

/-! #### The computable rational wrappers agree with the library operations -/

theorem qAdd_eq (a b : ℚ) : qAdd a b = a + b := by
  rw [Rat.add_def']; rfl

theorem qSub_eq (a b : ℚ) : qSub a b = a - b := by
  rw [Rat.sub_def']; rfl

theorem qMul_eq (a b : ℚ) : qMul a b = a * b := by
  rw [Rat.mul_def, qMul, Rat.mkRat_def]
  rw [dif_neg (by positivity)]

theorem qDiv_eq (a b : ℚ) : qDiv a b = a / b := by
  unfold qDiv
  have had : ((a.den : ℚ)) ≠ 0 := by exact_mod_cast a.den_pos.ne'
  have hbd : ((b.den : ℚ)) ≠ 0 := by exact_mod_cast b.den_pos.ne'
  rcases lt_trichotomy b.num 0 with hneg | hz | hpos
  · rw [if_pos hneg, Rat.mkRat_eq_divInt, Rat.divInt_eq_div]
    have hc : (b.num : ℚ) < 0 := by exact_mod_cast hneg
    push_cast
    rw [abs_of_neg hc]
    conv_rhs => rw [← Rat.num_div_den a, ← Rat.num_div_den b]
    field_simp
  · have hb0 : b = 0 := Rat.num_eq_zero.mp hz
    subst hb0
    simp
  · rw [if_neg (by omega), Rat.mkRat_eq_divInt, Rat.divInt_eq_div]
    have hc : (0 : ℚ) < (b.num : ℚ) := by exact_mod_cast hpos
    push_cast
    rw [abs_of_pos hc]
    conv_rhs => rw [← Rat.num_div_den a, ← Rat.num_div_den b]
    field_simp

/-! #### Facts about `stripEnds` and `uniq` -/

theorem dropWhile_head_not (p : α → Bool) :
    ∀ (l : List α) (c : α), (l.dropWhile p).head? = some c → p c = false := by
  intro l
  induction l with
  | nil => intro c h; simp [List.dropWhile] at h
  | cons a as ih =>
    intro c h
    by_cases hp : p a
    · rw [List.dropWhile_cons_of_pos hp] at h
      exact ih c h
    · rw [List.dropWhile_cons_of_neg hp] at h
      simp at h
      rw [h] at hp
      simpa using hp

theorem dropWhile_eq_self_of_head (p : α → Bool) (l : List α)
    (h : ∀ c, l.head? = some c → p c = false) : l.dropWhile p = l := by
  cases l with
  | nil => rfl
  | cons a as =>
    have := h a rfl
    exact List.dropWhile_cons_of_neg (by simp [this])

theorem dropWhile_idem (p : α → Bool) (l : List α) :
    (l.dropWhile p).dropWhile p = l.dropWhile p :=
  dropWhile_eq_self_of_head p _ (dropWhile_head_not p l)

theorem dropWhile_front_block (p : α → Bool) :
    ∀ l : List α, ∃ t, t ++ l.dropWhile p = l := by
  intro l
  induction l with
  | nil => exact ⟨[], rfl⟩
  | cons a as ih =>
    by_cases hp : p a
    · obtain ⟨t, ht⟩ := ih
      exact ⟨a :: t, by rw [List.dropWhile_cons_of_pos hp]; simpa using ht⟩
    · exact ⟨[], by rw [List.dropWhile_cons_of_neg hp]; rfl⟩

theorem stripEnds_idem (p : Char → Bool) (l : List Char) :
    stripEnds p (stripEnds p l) = stripEnds p l := by
  unfold stripEnds
  set d1 := l.dropWhile p with hd1
  set r := d1.reverse.dropWhile p with hr
  -- the trimmed list is a front block of `d1`, so its head still fails `p`
  have hfront : ∃ t, r.reverse ++ t = d1 := by
    obtain ⟨t, ht⟩ := dropWhile_front_block p d1.reverse
    refine ⟨t.reverse, ?_⟩
    have := congrArg List.reverse ht
    simpa using this
  have hstep1 : r.reverse.dropWhile p = r.reverse := by
    apply dropWhile_eq_self_of_head
    intro c hc
    cases hrev : r.reverse with
    | nil => rw [hrev] at hc; simp at hc
    | cons c0 cs =>
      rw [hrev] at hc
      simp at hc
      obtain ⟨t, ht⟩ := hfront
      rw [hrev] at ht
      have hd1head : d1.head? = some c0 := by
        rw [← ht]; rfl
      have := dropWhile_head_not p l c0 (by rw [← hd1]; exact hd1head)
      rwa [hc] at this
  have hstep2 : r.reverse.reverse.dropWhile p = r.reverse.reverse := by
    have : r.reverse.reverse = r := by simp
    rw [this, hr]
    exact dropWhile_idem p d1.reverse
  rw [hstep1, hstep2]
  simp

theorem pyStrip_idem (s : String) : pyStrip (pyStrip s) = pyStrip s := by
  unfold pyStrip
  exact congrArg String.mk (stripEnds_idem isPySpace s.data)

theorem uniqGo_idem :
    ∀ (l : List String) (seen : List String),
      uniqGo seen (uniqGo seen l) = uniqGo seen l := by
  intro l
  induction l with
  | nil => intro seen; rfl
  | cons x xs ih =>
    intro seen
    by_cases hc : (!(uniqKey x == "") && !(seen.contains (uniqKey x))) = true
    · have h1 : uniqGo seen (x :: xs) = pyStrip x :: uniqGo (uniqKey x :: seen) xs := by
        simp only [uniqGo, if_pos hc]
      have hkey : uniqKey (pyStrip x) = uniqKey x := by
        unfold uniqKey; rw [pyStrip_idem]
      have h2 : uniqGo seen (pyStrip x :: uniqGo (uniqKey x :: seen) xs)
          = pyStrip (pyStrip x) :: uniqGo (uniqKey x :: seen) (uniqGo (uniqKey x :: seen) xs) := by
        simp only [uniqGo, hkey, if_pos hc]
      rw [h1, h2, pyStrip_idem, ih]
    · have h1 : uniqGo seen (x :: xs) = uniqGo seen xs := by
        simp only [uniqGo, if_neg hc]
      rw [h1, ih]




/-! #### Claim C8 -/

/-- C8: the dedupe operation is idempotent — for every input sequence of
strings, applying `uniq` to the result of `uniq` yields the same sequence as
applying `uniq` once. -/
theorem dedupe_idempotent (l : List String) : uniq (uniq l) = uniq l :=
  uniqGo_idem l []

/-! #### Claim C1 — section extraction on the structured family -/

theorem splitOnP_of_none (p : Char → Bool) :
    ∀ l : List Char, (∀ c ∈ l, p c = false) → splitOnP p l = [l] := by
  intro l
  induction l with
  | nil => intro _; rfl
  | cons c cs ih =>
    intro h
    have hc : p c = false := h c (by simp)
    have := ih fun d hd => h d (by simp [hd])
    simp only [splitOnP, hc, Bool.false_eq_true, if_false, this]

theorem splitOnP_append (p : Char → Bool) (d : Char) (hd : p d = true) :
    ∀ (x z : List Char), (∀ c ∈ x, p c = false) →
      splitOnP p (x ++ d :: z) = x :: splitOnP p z := by
  intro x
  induction x with
  | nil => intro z _; simp [splitOnP, hd]
  | cons c cx ih =>
    intro z h
    have hc : p c = false := h c (by simp)
    have h2 := ih z fun e he => h e (by simp [he])
    have hgoal : splitOnP p ((c :: cx) ++ d :: z) =
        match splitOnP p (cx ++ d :: z) with
        | [] => [[c]]
        | h :: t => (c :: h) :: t := by
      simp [splitOnP, hc]
    rw [hgoal, h2]

theorem splitJoin :
    ∀ (xs : List (List Char)) (x : List Char),
      (∀ c ∈ x, isDelim c = false) →
      (∀ y ∈ xs, ∀ c ∈ y, isDelim c = false) →
      splitOnP isDelim (joinComma (x :: xs)) = x :: xs.map (fun y => ' ' :: y) := by
  intro xs
  induction xs with
  | nil =>
    intro x hx _
    simpa [joinComma] using splitOnP_of_none isDelim x hx
  | cons y ys ih =>
    intro x hx hys
    have hysy : ∀ c ∈ y, isDelim c = false := hys y (by simp)
    have hysrest : ∀ z ∈ ys, ∀ c ∈ z, isDelim c = false := fun z hz => hys z (by simp [hz])
    have hcomma : isDelim ',' = true := by decide
    have h1 : joinComma (x :: y :: ys) = x ++ ',' :: (' ' :: joinComma (y :: ys)) := rfl
    rw [h1, splitOnP_append isDelim ',' hcomma x _ hx]
    have h2 := ih y hysy hysrest
    have hsp : isDelim ' ' = false := by decide
    simp only [splitOnP, hsp, Bool.false_eq_true, if_false, h2, List.map_cons]

theorem processItem_space (l : List Char) : processItem (' ' :: l) = processItem l := by
  have : stripEnds isPySpace (' ' :: l) = stripEnds isPySpace l := by
    unfold stripEnds
    rw [List.dropWhile_cons_of_pos (by decide : isPySpace ' ' = true)]
  simp only [processItem, this]

theorem filterMap_space_map :
    ∀ xs : List (List Char),
      (xs.map (fun y => ' ' :: y)).filterMap processItem = xs.filterMap processItem := by
  intro xs
  induction xs with
  | nil => rfl
  | cons y ys ih =>
    simp only [List.map_cons, List.filterMap_cons, processItem_space, ih]

theorem classStarNL_family (c : Char) (t : List Char) (hc : inSC c = false) :
    classStarNL (':' :: '\n' :: c :: t) = some (c :: t) := by
  have hcn : (c == '\n') = false := by
    cases h : c == '\n'
    · rfl
    · have : c = '\n' := by exact eq_of_beq h
      rw [this] at hc
      simp [inSC, isPySpace] at hc
  have h1 : (':' :: '\n' :: c :: t).takeWhile inSC = ':' :: '\n' :: (c :: t).takeWhile inSC := by
    simp [List.takeWhile, inSC, isPySpace]
  have h2 : (c :: t).takeWhile inSC = [] := by
    simp [List.takeWhile, hc]
  unfold classStarNL
  rw [h1, h2]
  show tryNL (':' :: '\n' :: c :: t) 2 = some (c :: t)
  unfold tryNL
  simp [List.get?, hcn]
  rfl

theorem lookaheadB_of_not_nl (c : Char) (cs : List Char) (hc : (c == '\n') = false) :
    lookaheadB (c :: cs) = false := by
  unfold lookaheadB
  simp [hc]

theorem lazyGroup_family :
    ∀ (b r : List Char), (∀ c ∈ b, (c == '\n') = false) →
      lazyGroup (b ++ '\n' :: '\n' :: r) = b := by
  intro b
  induction b with
  | nil =>
    intro r _
    simp [lazyGroup, lookaheadB]
  | cons c bs ih =>
    intro r h
    have hc : (c == '\n') = false := h c (by simp)
    have hla : lookaheadB (c :: (bs ++ '\n' :: '\n' :: r)) = false :=
      lookaheadB_of_not_nl c _ hc
    have hstep : lazyGroup ((c :: bs) ++ '\n' :: '\n' :: r) =
        c :: lazyGroup (bs ++ '\n' :: '\n' :: r) := by
      simp only [List.cons_append, lazyGroup, List.append_eq, hla, Bool.false_eq_true, if_false]
    rw [hstep, ih r fun d hd => h d (by simp [hd])]

theorem matchSkillsAt_eq (s tl : List Char) (extra : List (List Char)) (g : List Char)
    (hcands : headerCandidates s = tl :: extra)
    (hcs : classStarNL tl = some g) :
    matchSkillsAt s = some (lazyGroup g) := by
  unfold matchSkillsAt
  rw [hcands]
  simp [firstSome, hcs]

theorem searchSkills_cons (c : Char) (cs : List Char) (g : List Char)
    (hm : matchSkillsAt (c :: cs) = some g) : searchSkills (c :: cs) = some g := by
  simp [searchSkills, hm]

theorem joinComma_cons_ex (x : List Char) (xs : List (List Char)) :
    ∃ t, joinComma (x :: xs) = x ++ t := by
  cases xs with
  | nil => exact ⟨[], by simp [joinComma]⟩
  | cons y t => exact ⟨',' :: ' ' :: joinComma (y :: t), rfl⟩

theorem joinComma_no_nl :
    ∀ xs : List (List Char), (∀ y ∈ xs, ∀ c ∈ y, isDelim c = false) →
      ∀ c ∈ joinComma xs, (c == '\n') = false := by
  intro xs
  induction xs with
  | nil => intro _ c hc; simp [joinComma] at hc
  | cons x xs ih =>
    intro hP c hc
    have hofx : ∀ c ∈ x, (c == '\n') = false := by
      intro d hd
      have hnd := hP x (by simp) d hd
      cases hbeq : d == '\n'
      · rfl
      · have : d = '\n' := eq_of_beq hbeq
        rw [this] at hnd
        simp [isDelim] at hnd
    cases xs with
    | nil =>
      simp only [joinComma] at hc
      exact hofx c hc
    | cons y t =>
      have hstep : joinComma (x :: y :: t) = x ++ ',' :: ' ' :: joinComma (y :: t) := rfl
      rw [hstep] at hc
      rcases List.mem_append.mp hc with hin | hin
      · exact hofx c hin
      · rcases hin with _ | ⟨_, hin⟩
        · rfl
        · rcases hin with _ | ⟨_, hin⟩
          · rfl
          · exact ih (fun z hz => hP z (by simp [hz])) c hin

theorem extractSkills_section_characterisation
    (h : String) (items : List String) (rest : String)
    (hh : h ∈ headerChoices)
    (hi : itemsOkB items = true) :
    extractSkills (mkResumeText h items rest) =
      uniq ((items.filterMap fun it => processItem it.data).take 100) := by
  simp only [itemsOkB, Bool.and_eq_true, List.all_eq_true] at hi
  obtain ⟨hhead, hall⟩ := hi
  cases items with
  | nil => simp [headOk] at hhead
  | cons i0 irest =>
  simp only [headOk] at hhead
  cases hdata : i0.data with
  | nil => rw [hdata] at hhead; simp [headCharOk] at hhead
  | cons c0 i0t =>
  rw [hdata] at hhead
  simp only [headCharOk] at hhead
  have hc0 : inSC c0 = false := by simpa using hhead
  have hnd : ∀ y ∈ (i0 :: irest).map String.data, ∀ c ∈ y, isDelim c = false := by
    intro y hy c hcy
    obtain ⟨it, hit, rfl⟩ := List.mem_map.mp hy
    have h1 := hall it hit
    simp only [noDelims, List.all_eq_true] at h1
    have h2 := h1 c hcy
    simpa using h2
  have hnonl : ∀ c ∈ joinComma ((i0 :: irest).map String.data), (c == '\n') = false :=
    joinComma_no_nl _ hnd
  -- the body starts with the head character of the first item
  obtain ⟨jt, hjt⟩ := joinComma_cons_ex i0.data (irest.map String.data)
  have hjoin : joinComma ((i0 :: irest).map String.data) = c0 :: (i0t ++ jt) := by
    simp only [List.map_cons]
    rw [hjt, hdata]
    rfl
  -- the [\s:]*\n step lands exactly after the header's newline
  have hcs : classStarNL (':' :: '\n' ::
      (joinComma ((i0 :: irest).map String.data) ++ '\n' :: '\n' :: rest.data))
      = some (joinComma ((i0 :: irest).map String.data) ++ '\n' :: '\n' :: rest.data) := by
    rw [hjoin]
    exact classStarNL_family c0 _ hc0
  -- the lazy group captures exactly the body
  have hlazy : lazyGroup (joinComma ((i0 :: irest).map String.data) ++ '\n' :: '\n' :: rest.data)
      = joinComma ((i0 :: irest).map String.data) :=
    lazyGroup_family _ rest.data hnonl
  -- the search succeeds at position 0 for each of the five headers
  have hsearch : searchSkills (mkResumeText h (i0 :: irest) rest).data
      = some (joinComma ((i0 :: irest).map String.data)) := by
    simp only [headerChoices, List.mem_cons, List.not_mem_nil, or_false] at hh
    rcases hh with rfl | rfl | rfl | rfl | rfl
    · have hm := matchSkillsAt_eq (mkResumeText "Skills" (i0 :: irest) rest).data
        (':' :: '\n' :: (joinComma ((i0 :: irest).map String.data) ++ '\n' :: '\n' :: rest.data))
        [('s' :: ':' :: '\n' :: (joinComma ((i0 :: irest).map String.data) ++ '\n' :: '\n' :: rest.data))]
        _ rfl hcs
      rw [hlazy] at hm
      exact searchSkills_cons _ _ _ hm
    · have hm := matchSkillsAt_eq (mkResumeText "Technical Skills" (i0 :: irest) rest).data
        (':' :: '\n' :: (joinComma ((i0 :: irest).map String.data) ++ '\n' :: '\n' :: rest.data))
        [('s' :: ':' :: '\n' :: (joinComma ((i0 :: irest).map String.data) ++ '\n' :: '\n' :: rest.data))]
        _ rfl hcs
      rw [hlazy] at hm
      exact searchSkills_cons _ _ _ hm
    · have hm := matchSkillsAt_eq (mkResumeText "Core Competencies" (i0 :: irest) rest).data
        (':' :: '\n' :: (joinComma ((i0 :: irest).map String.data) ++ '\n' :: '\n' :: rest.data))
        []
        _ rfl hcs
      rw [hlazy] at hm
      exact searchSkills_cons _ _ _ hm
    · have hm := matchSkillsAt_eq (mkResumeText "Expertise" (i0 :: irest) rest).data
        (':' :: '\n' :: (joinComma ((i0 :: irest).map String.data) ++ '\n' :: '\n' :: rest.data))
        []
        _ rfl hcs
      rw [hlazy] at hm
      exact searchSkills_cons _ _ _ hm
    · have hm := matchSkillsAt_eq (mkResumeText "Proficiencies" (i0 :: irest) rest).data
        (':' :: '\n' :: (joinComma ((i0 :: irest).map String.data) ++ '\n' :: '\n' :: rest.data))
        [('s' :: ':' :: '\n' :: (joinComma ((i0 :: irest).map String.data) ++ '\n' :: '\n' :: rest.data))]
        _ rfl hcs
      rw [hlazy] at hm
      exact searchSkills_cons _ _ _ hm
  -- split the captured body and push the cleaning through
  have hsplit : splitOnP isDelim (joinComma ((i0 :: irest).map String.data))
      = i0.data :: (irest.map String.data).map (fun y => ' ' :: y) := by
    have hx : ∀ c ∈ i0.data, isDelim c = false := hnd i0.data (by simp)
    have hxs : ∀ y ∈ irest.map String.data, ∀ c ∈ y, isDelim c = false := by
      intro y hy
      exact hnd y (by simp [hy])
    simpa using splitJoin (irest.map String.data) i0.data hx hxs
  have hfm : ((splitOnP isDelim (joinComma ((i0 :: irest).map String.data))).filterMap
      processItem) = (i0 :: irest).filterMap fun it => processItem it.data := by
    rw [hsplit]
    simp only [List.filterMap_cons]
    rw [filterMap_space_map]
    rw [List.filterMap_map]
    rfl
  unfold extractSkills extract_skills_from_text
  rw [hsearch]
  simp only
  rw [hfm]

/-- C1 (counterexample): the claim as stated — that `extractSkills` returns
exactly the trimmed, case-insensitively deduplicated items of the
comma-separated list — fails at the concrete resume text
`"Skills:\nx, Python\n\nMore"`: the item `"x"` is dropped by the
2-50-character validation, so the code returns `["Python"]` while the claimed
list is `["x", "Python"]`. -/
theorem extractSkills_not_plain_list_items :
    claimListItems "x, Python" = ["x", "Python"] ∧
    mkResumeText "Skills" ["x", "Python"] "More" = "Skills:\nx, Python\n\nMore" ∧
    extractSkills "Skills:\nx, Python\n\nMore" = ["Python"] ∧
    extractSkills "Skills:\nx, Python\n\nMore" ≠ claimListItems "x, Python" :=
  ⟨by decide, by decide, by decide, by decide⟩

/-- C1 (amended): for every resume text of the structured family — one of the
five skills-section headers, a colon and newline, a comma-separated item
list, a blank line, then arbitrary text — `extractSkills` returns exactly the
items of the list after whitespace- and bullet-stripping, dropping items
shorter than 2 or longer than 50 characters, items without an ASCII letter
and the seven connector stop-words, capped at 100 items, then deduplicated
case-insensitively in first-occurrence order. -/
theorem extractSkills_section_items
    (h : String) (items : List String) (rest : String)
    (hh : h ∈ headerChoices)
    (hi : itemsOkB items = true) :
    extractSkills (mkResumeText h items rest) =
      uniq ((items.filterMap fun it => processItem it.data).take 100) :=
  extractSkills_section_characterisation h items rest hh hi

/-- C1 witness: the amended theorem applied at a concrete header and item
list, with both hypotheses discharged by evaluation. -/
theorem extractSkills_section_items_witness :
    ("Skills" ∈ headerChoices) ∧
    itemsOkB ["Python", "x", "and", " SQL ", "python"] = true ∧
    extractSkills (mkResumeText "Skills" ["Python", "x", "and", " SQL ", "python"] "More") =
      uniq (((["Python", "x", "and", " SQL ", "python"] : List String).filterMap
        fun it => processItem it.data).take 100) ∧
    extractSkills (mkResumeText "Skills" ["Python", "x", "and", " SQL ", "python"] "More") =
      ["Python", "SQL"] :=
  ⟨by decide, by decide,
    extractSkills_section_items "Skills" _ "More" (by decide) (by decide),
    by decide⟩

/-! #### Claim C2 -/

/-- C2: for every resume text in which the skills-section pattern finds no
match, `extractSkills` returns the empty sequence — no skill is inferred from
keywords elsewhere in the text. -/
theorem extractSkills_empty_of_no_section (t : String)
    (h : searchSkills t.data = none) : extractSkills t = [] := by
  unfold extractSkills extract_skills_from_text
  rw [h]
  rfl

/-- C2 witness: a keyword-dense text with no skills-section header. -/
theorem extractSkills_empty_of_no_section_witness :
    searchSkills "I build compilers in Go and Rust every day".data = none ∧
    extractSkills "I build compilers in Go and Rust every day" = [] :=
  ⟨by decide, extractSkills_empty_of_no_section _ (by decide)⟩



/-! #### Claims C7 and C10 — the parser's error path -/

/-- C7: for every input text, when an exception is raised during field
extraction (the `raised` oracle), `parse_resume_to_json` catches it and
returns — rather than propagates (the embedded function is total) — a
structure whose sequence fields `skills`, `education`, `experience` are all
empty and whose `raw_text` equals the original input. -/
theorem parse_resume_error_path (raw : String) :
    (parse_resume_to_json raw true).lookup "skills" = some (.l []) ∧
    (parse_resume_to_json raw true).lookup "education" = some (.l []) ∧
    (parse_resume_to_json raw true).lookup "experience" = some (.l []) ∧
    (parse_resume_to_json raw true).lookup "raw_text" = some (.s raw) ∧
    parse_resume_to_json raw true =
      [("skills", .l []), ("education", .l []), ("experience", .l []),
        ("raw_text", .s raw)] :=
  ⟨rfl, rfl, rfl, rfl, rfl⟩

/-- C10: on the error path the returned mapping carries exactly the keys
`skills`, `education`, `experience`, `raw_text`; the keys `name`, `email`,
`phone`, `location` present on the success path are absent, so a caller
reading them after a failure finds nothing rather than empty strings. -/
theorem parse_error_path_key_set (raw : String) :
    (parse_resume_to_json raw true).map Prod.fst =
      ["skills", "education", "experience", "raw_text"] ∧
    (parse_resume_to_json raw false).map Prod.fst =
      ["name", "email", "phone", "location", "skills", "education",
        "experience", "raw_text"] ∧
    (parse_resume_to_json raw true).lookup "name" = none ∧
    (parse_resume_to_json raw true).lookup "email" = none ∧
    (parse_resume_to_json raw true).lookup "phone" = none ∧
    (parse_resume_to_json raw true).lookup "location" = none ∧
    ((parse_resume_to_json raw false).lookup "name").isSome = true ∧
    ((parse_resume_to_json raw false).lookup "email").isSome = true ∧
    ((parse_resume_to_json raw false).lookup "phone").isSome = true ∧
    ((parse_resume_to_json raw false).lookup "location").isSome = true :=
  ⟨rfl, rfl, rfl, rfl, rfl, rfl, rfl, rfl, rfl, rfl⟩


/-! #### Claim C3 — the match score is an integer in [0, 100] -/

theorem scoreJob_ok (r : ResumeData) (j : Job) : scoreOk (scoreJob r j) = true := by
  have hms : (scoreJob r j).match_score
      = some (min (pyInt (qAdd (qAdd (qAdd
          (if (r.skills.map pyLower).isEmpty then (0 : ℚ)
           else min (qMul (qDiv (((r.skills.map pyLower).filter fun sk =>
               containsSub (job_text j) sk).length : ℚ)
             ((r.skills.map pyLower).length : ℚ)) 40) 40)
          (seniority_component j r))
          (if j.remote then (20 : ℚ)
           else if containsSub (pyLower j.location) (pyLower r.location) then 20 else 0))
          (if ["startup", "tech", "software"].any
              (fun k => containsSub (pyLower j.company) k) then (10 : ℚ) else 0))) 100) := rfl
  set sk : ℚ := (if (r.skills.map pyLower).isEmpty then (0 : ℚ)
           else min (qMul (qDiv (((r.skills.map pyLower).filter fun sk =>
               containsSub (job_text j) sk).length : ℚ)
             ((r.skills.map pyLower).length : ℚ)) 40) 40) with hsk
  set lo : ℚ := (if j.remote then (20 : ℚ)
           else if containsSub (pyLower j.location) (pyLower r.location) then 20 else 0) with hlo
  set co : ℚ := (if ["startup", "tech", "software"].any
              (fun k => containsSub (pyLower j.company) k) then (10 : ℚ) else 0) with hco
  have hsk0 : 0 ≤ sk := by
    rw [hsk]
    split
    · exact le_refl 0
    · rw [qMul_eq, qDiv_eq]
      refine le_min ?_ (by norm_num)
      have : (0 : ℚ) ≤ (((r.skills.map pyLower).filter fun sk =>
          containsSub (job_text j) sk).length : ℚ) / ((r.skills.map pyLower).length : ℚ) :=
        div_nonneg (by positivity) (by positivity)
      linarith
  have hsen0 : 0 ≤ seniority_component j r := by
    unfold seniority_component
    split
    · split <;> norm_num
    · norm_num
  have hlo0 : 0 ≤ lo := by
    rw [hlo]; split
    · norm_num
    · split <;> norm_num
  have hco0 : 0 ≤ co := by
    rw [hco]; split <;> norm_num
  have hscore0 : 0 ≤ qAdd (qAdd (qAdd sk (seniority_component j r)) lo) co := by
    rw [qAdd_eq, qAdd_eq, qAdd_eq]
    linarith
  have hpy0 : 0 ≤ pyInt (qAdd (qAdd (qAdd sk (seniority_component j r)) lo) co) := by
    unfold pyInt
    rw [if_pos hscore0]
    exact Rat.le_floor.mpr (by exact_mod_cast hscore0)
  unfold scoreOk
  rw [hms]
  simp only
  rw [Bool.and_eq_true, decide_eq_true_eq, decide_eq_true_eq]
  exact ⟨le_min hpy0 (by norm_num), min_le_right _ _⟩

theorem pipeline_fst (st : AggState) (now : ℚ) (r : ResumeData) (q : SearchQuery)
    (maxr : Nat) (net : Net) :
    ∃ js, (aggregatePipeline st now r q maxr net).1 = calculate_match_scores js r :=
  ⟨_, rfl⟩

/-- C3: starting from a fresh aggregator state (empty cache, so the answer is
freshly computed rather than replayed), every listing returned by a search —
whatever combination of resume, query, count and provider responses produced
it, including a resume with an empty skill sequence — carries a
`match_score` that is an integer in the closed interval [0, 100]. -/
theorem match_score_in_range (st : AggState) (now : ℚ) (r : ResumeData)
    (q : SearchQuery) (maxr : Nat) (net : Net) (hc : st.cache = []) :
    ((search_jobs st now r q maxr net).1.all scoreOk) = true := by
  have hlook : cacheLookup st.cache (q, maxr) = none := by rw [hc]; rfl
  unfold search_jobs
  rw [hlook]
  unfold searchMiss
  simp only
  rw [List.all_eq_true]
  intro j hj
  have hj2 : j ∈ (aggregatePipeline st now r q maxr net).1 := List.take_subset _ _ hj
  obtain ⟨js, hjs⟩ := pipeline_fst st now r q maxr net
  rw [hjs] at hj2
  unfold calculate_match_scores at hj2
  obtain ⟨x, _, rfl⟩ := List.mem_map.mp hj2
  exact scoreJob_ok r x

/-- C3 witness: a fresh state with no providers, an empty-skills resume and
two requested listings. -/
theorem match_score_in_range_witness :
    ((search_jobs ⟨[], ⟨0, 3600⟩, ⟨0, 3600⟩, false, false⟩ 0 ⟨[], [], ""⟩
      ⟨"python", "", "Any"⟩ 2 ⟨.fail, .fail⟩).1.all scoreOk) = true :=
  match_score_in_range _ 0 _ _ 2 _ rfl

/-! #### Claim C4 — the seniority component of the score -/

/-- C4: the seniority component contributes exactly +30 when the listing's
title+description text contains one of "senior"/"lead"/"principal" and the
resume's experience text also does; exactly +20 when the listing text
contains none of them, regardless of the resume; and exactly +0 when the
listing has such a keyword but the resume does not. -/
theorem seniority_component_cases (job : Job) (r : ResumeData) :
    (hasSeniorityKw (job_text job) = true → hasSeniorityKw (resume_exp_text r) = true →
      seniority_component job r = 30) ∧
    (hasSeniorityKw (job_text job) = false → seniority_component job r = 20) ∧
    (hasSeniorityKw (job_text job) = true → hasSeniorityKw (resume_exp_text r) = false →
      seniority_component job r = 0) := by
  refine ⟨fun h1 h2 => ?_, fun h1 => ?_, fun h1 h2 => ?_⟩
  · simp [seniority_component, h1, h2]
  · simp [seniority_component, h1]
  · simp [seniority_component, h1, h2]

/-- C4 witness: one concrete listing/resume pair for each of the three
cases. -/
theorem seniority_component_cases_witness :
    seniority_component ⟨"Senior Dev", "", "", "", "", "", false, false, 0, "", none, []⟩
      ⟨[], ["lead engineer"], ""⟩ = 30 ∧
    seniority_component ⟨"Junior Dev", "", "", "", "", "", false, false, 0, "", none, []⟩
      ⟨[], ["lead engineer"], ""⟩ = 20 ∧
    seniority_component ⟨"Senior Dev", "", "", "", "", "", false, false, 0, "", none, []⟩
      ⟨[], ["junior intern"], ""⟩ = 0 :=
  ⟨(seniority_component_cases _ _).1 (by decide) (by decide),
   (seniority_component_cases _ _).2.1 (by decide),
   (seniority_component_cases _ _).2.2 (by decide) (by decide)⟩


/-! #### Claim C5 — the cache window -/

set_option maxRecDepth 4000

theorem cacheInsert_lookup (cache : List ((SearchQuery × Nat) × (List Job × ℚ)))
    (key : SearchQuery × Nat) (v : List Job × ℚ) :
    cacheLookup (cacheInsert cache key v) key = some v := by
  unfold cacheLookup cacheInsert
  rw [List.find?_cons_of_pos _ (by simp)]

theorem search_jobs_hit (st : AggState) (now : ℚ) (r : ResumeData) (q : SearchQuery)
    (maxr : Nat) (net : Net) (data : List Job) (ts : ℚ)
    (hl : cacheLookup st.cache (q, maxr) = some (data, ts))
    (hf : qSub now ts < 3600) :
    search_jobs st now r q maxr net = (data, st, []) := by
  unfold search_jobs
  rw [hl]
  simp [hf]

theorem search_jobs_miss_shape (st : AggState) (now : ℚ) (r : ResumeData) (q : SearchQuery)
    (maxr : Nat) (net : Net) (hm : cacheFreshB st.cache (q, maxr) now = false) :
    search_jobs st now r q maxr net =
      ((aggregatePipeline st now r q maxr net).1.take maxr,
       { (aggregatePipeline st now r q maxr net).2.1 with
           cache := cacheInsert (aggregatePipeline st now r q maxr net).2.1.cache (q, maxr)
             ((aggregatePipeline st now r q maxr net).1, now) },
       (aggregatePipeline st now r q maxr net).2.2) := by
  unfold search_jobs
  unfold cacheFreshB at hm
  cases hl : cacheLookup st.cache (q, maxr) with
  | none => rfl
  | some v =>
    rw [hl] at hm
    obtain ⟨data, ts⟩ := v
    simp only [decide_eq_false_iff_not] at hm
    show (if qSub now ts < 3600 then (data, st, [])
      else searchMiss st now r q maxr net) = _
    rw [if_neg hm]
    rfl

/-- C5 (amended): when the first call misses the cache (so it writes its own
entry at `t1`) and a second call with identical query and count runs at `t2`
with `t2 - t1 < 3600`, the second call makes no network request, leaves the
state (cache and provider counters) untouched, and returns the FULL list the
first call cached; that list equals the first call's result exactly when it
has at most `max_results` entries, because the first call returned the list
truncated to `max_results` but cached it untruncated (lines 94-96 versus
line 66). -/
theorem cache_window_replay (st0 : AggState) (t1 t2 : ℚ) (r1 r2 : ResumeData)
    (q : SearchQuery) (maxr : Nat) (net1 net2 : Net)
    (hmiss : cacheFreshB st0.cache (q, maxr) t1 = false)
    (hfresh : qSub t2 t1 < 3600) :
    (search_jobs (search_jobs st0 t1 r1 q maxr net1).2.1 t2 r2 q maxr net2).2.2 = [] ∧
    (search_jobs (search_jobs st0 t1 r1 q maxr net1).2.1 t2 r2 q maxr net2).2.1 =
      (search_jobs st0 t1 r1 q maxr net1).2.1 ∧
    (search_jobs st0 t1 r1 q maxr net1).1 =
      ((search_jobs (search_jobs st0 t1 r1 q maxr net1).2.1 t2 r2 q maxr net2).1).take maxr ∧
    (((search_jobs (search_jobs st0 t1 r1 q maxr net1).2.1 t2 r2 q maxr net2).1).length ≤ maxr →
      (search_jobs (search_jobs st0 t1 r1 q maxr net1).2.1 t2 r2 q maxr net2).1 =
        (search_jobs st0 t1 r1 q maxr net1).1) := by
  have h1 := search_jobs_miss_shape st0 t1 r1 q maxr net1 hmiss
  have hlook : cacheLookup (search_jobs st0 t1 r1 q maxr net1).2.1.cache (q, maxr)
      = some ((aggregatePipeline st0 t1 r1 q maxr net1).1, t1) := by
    rw [h1]
    exact cacheInsert_lookup _ _ _
  have h2 := search_jobs_hit (search_jobs st0 t1 r1 q maxr net1).2.1 t2 r2 q maxr net2
    (aggregatePipeline st0 t1 r1 q maxr net1).1 t1 hlook hfresh
  rw [h2]
  refine ⟨rfl, rfl, ?_, ?_⟩
  · rw [h1]
  · intro hlen
    rw [h1]
    exact (List.take_of_length_le hlen).symm

/-- C5 witness: a provider-less state, so the first call caches exactly one
mock listing and the replayed list coincides with the first result. -/
theorem cache_window_replay_witness :
    cacheFreshB ([] : List ((SearchQuery × Nat) × (List Job × ℚ))) (⟨"python", "", "Any"⟩, 1) 0 = false ∧
    qSub 1 0 < 3600 ∧
    ((search_jobs (search_jobs ⟨[], ⟨0, 3600⟩, ⟨0, 3600⟩, false, false⟩ 0 ⟨[], [], ""⟩
        ⟨"python", "", "Any"⟩ 1 ⟨.fail, .fail⟩).2.1 1 ⟨[], [], ""⟩
        ⟨"python", "", "Any"⟩ 1 ⟨.fail, .fail⟩).2.2 = [] ∧
      (search_jobs (search_jobs ⟨[], ⟨0, 3600⟩, ⟨0, 3600⟩, false, false⟩ 0 ⟨[], [], ""⟩
        ⟨"python", "", "Any"⟩ 1 ⟨.fail, .fail⟩).2.1 1 ⟨[], [], ""⟩
        ⟨"python", "", "Any"⟩ 1 ⟨.fail, .fail⟩).2.1 =
        (search_jobs ⟨[], ⟨0, 3600⟩, ⟨0, 3600⟩, false, false⟩ 0 ⟨[], [], ""⟩
        ⟨"python", "", "Any"⟩ 1 ⟨.fail, .fail⟩).2.1 ∧
      (search_jobs ⟨[], ⟨0, 3600⟩, ⟨0, 3600⟩, false, false⟩ 0 ⟨[], [], ""⟩
        ⟨"python", "", "Any"⟩ 1 ⟨.fail, .fail⟩).1 =
        ((search_jobs (search_jobs ⟨[], ⟨0, 3600⟩, ⟨0, 3600⟩, false, false⟩ 0 ⟨[], [], ""⟩
        ⟨"python", "", "Any"⟩ 1 ⟨.fail, .fail⟩).2.1 1 ⟨[], [], ""⟩
        ⟨"python", "", "Any"⟩ 1 ⟨.fail, .fail⟩).1).take 1 ∧
      (((search_jobs (search_jobs ⟨[], ⟨0, 3600⟩, ⟨0, 3600⟩, false, false⟩ 0 ⟨[], [], ""⟩
        ⟨"python", "", "Any"⟩ 1 ⟨.fail, .fail⟩).2.1 1 ⟨[], [], ""⟩
        ⟨"python", "", "Any"⟩ 1 ⟨.fail, .fail⟩).1).length ≤ 1 →
        (search_jobs (search_jobs ⟨[], ⟨0, 3600⟩, ⟨0, 3600⟩, false, false⟩ 0 ⟨[], [], ""⟩
        ⟨"python", "", "Any"⟩ 1 ⟨.fail, .fail⟩).2.1 1 ⟨[], [], ""⟩
        ⟨"python", "", "Any"⟩ 1 ⟨.fail, .fail⟩).1 =
        (search_jobs ⟨[], ⟨0, 3600⟩, ⟨0, 3600⟩, false, false⟩ 0 ⟨[], [], ""⟩
        ⟨"python", "", "Any"⟩ 1 ⟨.fail, .fail⟩).1)) :=
  ⟨by decide, by decide,
    cache_window_replay ⟨[], ⟨0, 3600⟩, ⟨0, 3600⟩, false, false⟩ 0 1 ⟨[], [], ""⟩ ⟨[], [], ""⟩
      ⟨"python", "", "Any"⟩ 1 ⟨.fail, .fail⟩ ⟨.fail, .fail⟩ (by decide) (by decide)⟩

/-- C5 (counterexample): the claim's "returns a result identical to the
first call's result" fails.  With one requested listing and a provider
response of two records, the first call returns one listing but caches two;
the second call, inside the cache window, returns both. -/
theorem cache_hit_not_identical_result :
    (search_jobs ⟨[], ⟨0, 3600⟩, ⟨0, 3600⟩, false, true⟩ 0 ⟨[], [], ""⟩ ⟨"", "", ""⟩ 1
      ⟨.fail, .ok [⟨"a", "", "", "", "", none, none, false, none⟩,
        ⟨"b", "", "", "", "", none, none, false, none⟩]⟩).1.length = 1 ∧
    (search_jobs (search_jobs ⟨[], ⟨0, 3600⟩, ⟨0, 3600⟩, false, true⟩ 0 ⟨[], [], ""⟩ ⟨"", "", ""⟩ 1
      ⟨.fail, .ok [⟨"a", "", "", "", "", none, none, false, none⟩,
        ⟨"b", "", "", "", "", none, none, false, none⟩]⟩).2.1 1 ⟨[], [], ""⟩ ⟨"", "", ""⟩ 1
      ⟨.fail, .ok [⟨"a", "", "", "", "", none, none, false, none⟩,
        ⟨"b", "", "", "", "", none, none, false, none⟩]⟩).1.length = 2 ∧
    (search_jobs (search_jobs ⟨[], ⟨0, 3600⟩, ⟨0, 3600⟩, false, true⟩ 0 ⟨[], [], ""⟩ ⟨"", "", ""⟩ 1
      ⟨.fail, .ok [⟨"a", "", "", "", "", none, none, false, none⟩,
        ⟨"b", "", "", "", "", none, none, false, none⟩]⟩).2.1 1 ⟨[], [], ""⟩ ⟨"", "", ""⟩ 1
      ⟨.fail, .ok [⟨"a", "", "", "", "", none, none, false, none⟩,
        ⟨"b", "", "", "", "", none, none, false, none⟩]⟩).1 ≠
    (search_jobs ⟨[], ⟨0, 3600⟩, ⟨0, 3600⟩, false, true⟩ 0 ⟨[], [], ""⟩ ⟨"", "", ""⟩ 1
      ⟨.fail, .ok [⟨"a", "", "", "", "", none, none, false, none⟩,
        ⟨"b", "", "", "", "", none, none, false, none⟩]⟩).1 := by
  refine ⟨by decide, by decide, by decide⟩

/-! #### Claim C6 — provider rate limiting -/

/-- C6: once a provider's counter has reached its ceiling (100 for Adzuna,
50 for RapidAPI) and the window's reset timestamp has not yet elapsed, a
provider call is skipped with no network request and no state change; once
the reset timestamp has elapsed, the counter is reset to zero and a fresh
one-hour window begins (and the provider is no longer limited). -/
theorem rate_limit_ceiling_and_reset (st : AggState) (now : ℚ) (q : SearchQuery)
    (maxr : Nat) (net : Net) :
    (st.has_adzuna = true → 100 ≤ st.adzuna_rl.calls → ¬(st.adzuna_rl.reset_time < now) →
      search_adzuna st now q maxr net = ([], st, [])) ∧
    (st.has_rapidapi = true → 50 ≤ st.rapidapi_rl.calls → ¬(st.rapidapi_rl.reset_time < now) →
      search_rapidapi st now q maxr net = ([], st, [])) ∧
    (st.adzuna_rl.reset_time < now →
      is_rate_limited .adzuna st now = (false, setRlInfo st .adzuna ⟨0, qAdd now 3600⟩)) ∧
    (st.rapidapi_rl.reset_time < now →
      is_rate_limited .rapidapi st now = (false, setRlInfo st .rapidapi ⟨0, qAdd now 3600⟩)) := by
  refine ⟨fun h1 h2 h3 => ?_, fun h1 h2 h3 => ?_, fun h1 => ?_, fun h1 => ?_⟩
  · have hrl : is_rate_limited .adzuna st now = (true, st) := by
      unfold is_rate_limited
      rw [if_neg (by exact h3)]
      simp [rlInfo, rlCeiling, h2]
    unfold search_adzuna
    rw [if_neg (by simp [h1]), hrl]
    rfl
  · have hrl : is_rate_limited .rapidapi st now = (true, st) := by
      unfold is_rate_limited
      rw [if_neg (by exact h3)]
      simp [rlInfo, rlCeiling, h2]
    unfold search_rapidapi
    rw [if_neg (by simp [h1]), hrl]
    rfl
  · unfold is_rate_limited
    rw [if_pos (by exact h1)]
    rfl
  · unfold is_rate_limited
    rw [if_pos (by exact h1)]
    rfl

/-- C6 witness: a state at both ceilings, probed inside the window (calls
skipped, state unchanged) and after it (counters reset, fresh window). -/
theorem rate_limit_ceiling_and_reset_witness :
    search_adzuna ⟨[], ⟨100, 500⟩, ⟨50, 500⟩, true, true⟩ 400 ⟨"", "", ""⟩ 5 ⟨.fail, .fail⟩
      = ([], ⟨[], ⟨100, 500⟩, ⟨50, 500⟩, true, true⟩, []) ∧
    search_rapidapi ⟨[], ⟨100, 500⟩, ⟨50, 500⟩, true, true⟩ 400 ⟨"", "", ""⟩ 5 ⟨.fail, .fail⟩
      = ([], ⟨[], ⟨100, 500⟩, ⟨50, 500⟩, true, true⟩, []) ∧
    is_rate_limited .adzuna ⟨[], ⟨100, 500⟩, ⟨50, 500⟩, true, true⟩ 600
      = (false, setRlInfo ⟨[], ⟨100, 500⟩, ⟨50, 500⟩, true, true⟩ .adzuna ⟨0, qAdd 600 3600⟩) ∧
    is_rate_limited .rapidapi ⟨[], ⟨100, 500⟩, ⟨50, 500⟩, true, true⟩ 600
      = (false, setRlInfo ⟨[], ⟨100, 500⟩, ⟨50, 500⟩, true, true⟩ .rapidapi ⟨0, qAdd 600 3600⟩) :=
  ⟨(rate_limit_ceiling_and_reset ⟨[], ⟨100, 500⟩, ⟨50, 500⟩, true, true⟩ 400
      ⟨"", "", ""⟩ 5 ⟨.fail, .fail⟩).1 rfl (by decide) (by decide),
   (rate_limit_ceiling_and_reset ⟨[], ⟨100, 500⟩, ⟨50, 500⟩, true, true⟩ 400
      ⟨"", "", ""⟩ 5 ⟨.fail, .fail⟩).2.1 rfl (by decide) (by decide),
   (rate_limit_ceiling_and_reset ⟨[], ⟨100, 500⟩, ⟨50, 500⟩, true, true⟩ 600
      ⟨"", "", ""⟩ 5 ⟨.fail, .fail⟩).2.2.1 (by decide),
   (rate_limit_ceiling_and_reset ⟨[], ⟨100, 500⟩, ⟨50, 500⟩, true, true⟩ 600
      ⟨"", "", ""⟩ 5 ⟨.fail, .fail⟩).2.2.2 (by decide)⟩

/-! #### Claim C9 — `days_ago` of returned listings -/

theorem days_ago_nonneg_of_dateOk (now : ℚ) (created : Option ℚ)
    (h : dateOk now created = true) : 0 ≤ calculate_days_ago now created := by
  cases created with
  | none => exact le_refl 0
  | some t =>
    unfold dateOk at h
    rw [decide_eq_true_eq] at h
    show (0 : Int) ≤ (qDiv (qSub now t) 86400).floor
    rw [qDiv_eq, qSub_eq]
    exact Rat.le_floor.mpr (by
      push_cast
      exact div_nonneg (by linarith) (by norm_num))

theorem search_adzuna_days (st : AggState) (now : ℚ) (q : SearchQuery) (maxr : Nat)
    (net : Net) (h : adzunaDatesOk net now = true) :
    ∀ j ∈ (search_adzuna st now q maxr net).1, daysOk j = true := by
  intro j hj
  unfold search_adzuna at hj
  by_cases h1 : st.has_adzuna = false
  · rw [if_pos h1] at hj; simp at hj
  · rw [if_neg h1] at hj
    by_cases h2 : (is_rate_limited .adzuna st now).1 = true
    · rw [if_pos h2] at hj; simp at hj
    · rw [if_neg h2] at hj
      cases hna : net.adzuna with
      | fail => rw [hna] at hj; simp at hj
      | ok raws =>
        rw [hna] at hj
        unfold adzunaDatesOk at h
        rw [hna, List.all_eq_true] at h
        simp only at hj
        obtain ⟨x, hx, rfl⟩ := List.mem_map.mp hj
        unfold daysOk
        rw [decide_eq_true_eq]
        exact days_ago_nonneg_of_dateOk now x.created (h x hx)

theorem search_rapidapi_days (st : AggState) (now : ℚ) (q : SearchQuery) (maxr : Nat)
    (net : Net) (h : rapidDatesOk net now = true) :
    ∀ j ∈ (search_rapidapi st now q maxr net).1, daysOk j = true := by
  intro j hj
  unfold search_rapidapi at hj
  by_cases h1 : st.has_rapidapi = false
  · rw [if_pos h1] at hj; simp at hj
  · rw [if_neg h1] at hj
    by_cases h2 : (is_rate_limited .rapidapi st now).1 = true
    · rw [if_pos h2] at hj; simp at hj
    · rw [if_neg h2] at hj
      cases hna : net.rapidapi with
      | fail => rw [hna] at hj; simp at hj
      | ok raws =>
        rw [hna] at hj
        unfold rapidDatesOk at h
        rw [hna, List.all_eq_true] at h
        simp only at hj
        obtain ⟨x, hx, rfl⟩ := List.mem_map.mp hj
        unfold daysOk
        rw [decide_eq_true_eq]
        exact days_ago_nonneg_of_dateOk now x.job_posted_at (h x hx)

theorem mock_days (q : SearchQuery) (maxr : Nat) :
    ∀ j ∈ generate_enhanced_mock_jobs q maxr, daysOk j = true := by
  intro j hj
  unfold generate_enhanced_mock_jobs at hj
  obtain ⟨i, _, rfl⟩ := List.mem_map.mp hj
  unfold daysOk
  rw [decide_eq_true_eq]
  show (0 : Int) ≤ ((i % 7 : Nat) : Int)
  exact Int.ofNat_nonneg _

theorem scoreJob_days (r : ResumeData) (j : Job) :
    (scoreJob r j).days_ago = j.days_ago := rfl

theorem searchMiss_days (st : AggState) (now : ℚ) (r : ResumeData) (q : SearchQuery)
    (maxr : Nat) (net : Net) (hnet : netDatesOk net now = true) :
    ∀ j ∈ (searchMiss st now r q maxr net).1, daysOk j = true := by
  intro j hj
  unfold netDatesOk at hnet
  rw [Bool.and_eq_true] at hnet
  obtain ⟨hA, hR⟩ := hnet
  have hj1 : j ∈ (aggregatePipeline st now r q maxr net).1.take maxr := hj
  have hj2 : j ∈ (aggregatePipeline st now r q maxr net).1 := List.take_subset _ _ hj1
  have hfst : (aggregatePipeline st now r q maxr net).1
      = calculate_match_scores (gatheredJobs st now q maxr net) r := rfl
  rw [hfst] at hj2
  unfold calculate_match_scores at hj2
  obtain ⟨x, hx, rfl⟩ := List.mem_map.mp hj2
  have hxd : daysOk x = true := by
    unfold gatheredJobs at hx
    split at hx
    · exact mock_days q maxr x hx
    · rcases List.mem_append.mp hx with hxa | hxb
      · unfold provA at hxa
        split at hxa
        · exact search_adzuna_days st now q maxr net hA x hxa
        · simp at hxa
      · unfold provB at hxb
        split at hxb
        · exact search_rapidapi_days _ now q _ net hR x hxb
        · simp at hxb
  unfold daysOk at hxd ⊢
  rw [decide_eq_true_eq] at hxd ⊢
  rw [scoreJob_days]
  exact hxd

/-- C9 (amended): every listing returned by the job search — from a
provider response, the synthetic templates, or the agent's fallback listing —
has a non-negative `days_ago`, PROVIDED no provider response carries a
posting timestamp in the future and the cache holds no negatively-dated
listing; a future-dated posting produces a negative `days_ago` (see the
counterexample). -/
theorem days_ago_nonneg_all_origins
    (st : AggState) (now : ℚ) (r : ResumeData) (q : SearchQuery) (maxr : Nat)
    (net : Net) (raised : Bool)
    (hcache : cacheDaysOk st = true) (hnet : netDatesOk net now = true) :
    ((agent_search_jobs st now r q maxr net raised).1.all daysOk) = true := by
  cases raised with
  | true =>
    show (([fallbackListing] : List Job).all daysOk) = true
    decide
  | false =>
    show ((search_jobs st now r q maxr net).1.all daysOk) = true
    rw [List.all_eq_true]
    intro j hj
    unfold search_jobs at hj
    cases hl : cacheLookup st.cache (q, maxr) with
    | some v =>
      obtain ⟨data, ts⟩ := v
      rw [hl] at hj
      by_cases hf : qSub now ts < 3600
      · have hj2 : j ∈ data := by
          have : j ∈ (if qSub now ts < 3600 then ((data, st, []) : List Job × AggState × List Provider)
              else searchMiss st now r q maxr net).1 := hj
          rw [if_pos hf] at this
          exact this
        -- locate the cache entry
        unfold cacheLookup at hl
        cases hfind : st.cache.find? fun e => decide (e.1 = (q, maxr)) with
        | none => rw [hfind] at hl; simp at hl
        | some e =>
          rw [hfind] at hl
          simp only [Option.some.injEq] at hl
          have hmem := List.mem_of_find?_eq_some hfind
          unfold cacheDaysOk at hcache
          rw [List.all_eq_true] at hcache
          have := hcache e hmem
          rw [List.all_eq_true] at this
          apply this
          rw [hl]
          exact hj2
      · have hj2 : j ∈ (searchMiss st now r q maxr net).1 := by
          have : j ∈ (if qSub now ts < 3600 then ((data, st, []) : List Job × AggState × List Provider)
              else searchMiss st now r q maxr net).1 := hj
          rw [if_neg hf] at this
          exact this
        exact searchMiss_days st now r q maxr net hnet j hj2
    | none =>
      rw [hl] at hj
      exact searchMiss_days st now r q maxr net hnet j hj

/-- C9 witness: a provider listing dated in the past, an empty cache. -/
theorem days_ago_nonneg_all_origins_witness :
    cacheDaysOk ⟨[], ⟨0, 3600⟩, ⟨0, 3600⟩, true, false⟩ = true ∧
    netDatesOk ⟨.ok [⟨"t", "", "", "", "", none, none, some 50⟩], .fail⟩ 100000 = true ∧
    ((agent_search_jobs ⟨[], ⟨0, 3600⟩, ⟨0, 3600⟩, true, false⟩ 100000 ⟨[], [], ""⟩
      ⟨"", "", ""⟩ 1 ⟨.ok [⟨"t", "", "", "", "", none, none, some 50⟩], .fail⟩ false).1.all
        daysOk) = true :=
  ⟨by decide, by decide,
    days_ago_nonneg_all_origins ⟨[], ⟨0, 3600⟩, ⟨0, 3600⟩, true, false⟩ 100000 ⟨[], [], ""⟩
      ⟨"", "", ""⟩ 1 ⟨.ok [⟨"t", "", "", "", "", none, none, some 50⟩], .fail⟩ false
      (by decide) (by decide)⟩

/-- C9 (counterexample): a provider record whose (naive) posting date lies
one day in the future yields `days_ago = -1` in the returned listing, so
`days_ago` is not always non-negative as the claim states. -/
theorem days_ago_negative_for_future_posting :
    ((agent_search_jobs ⟨[], ⟨0, 7200⟩, ⟨0, 7200⟩, true, false⟩ 0 ⟨[], [], ""⟩ ⟨"", "", ""⟩ 1
      ⟨.ok [⟨"t", "", "", "", "", none, none, some 86400⟩], .fail⟩ false).1.map Job.days_ago
      = [-1]) ∧ ¬((0 : Int) ≤ -1) := by
  refine ⟨by decide, by decide⟩

end JobSnipper
